import Mathlib

/-!
Verification of the material-chain core of the Sihcom inventory/industry
repository (`src/sde.py`): the ME quantity adjuster `apply_me`, the catalog
lookups `find_source_for_material` / `get_materials_by_type_ids`, the
recursive resolver `resolve_material_chain`, the flattener
`flatten_material_tree` and the summarizer `get_chain_summary`.

Python's arbitrary-precision integers are modelled as `ℤ`; the floating-point
arithmetic inside `apply_me` (and the float division feeding `math.ceil`) is
modelled exactly over `ℚ`, with `round(x, 2)` modelled as rounding
`x * 100` to the nearest integer (the code's own comment says the 2-decimal
round exists only "to kill floating-point artefacts", i.e. the intended
semantics is exact decimal rounding).  SQLite tables are modelled as row
lists; the `sqlite3` connection becomes a record of those tables plus the
`invTypes` name map.
-/

/-- `round(x, 2)` of Python, over exact rationals: round `x·100` to the
nearest integer and divide back by `100`. -/
def round2 (x : ℚ) : ℚ := ((round (x * 100) : ℤ) : ℚ) / 100

/-- `apply_me` from `src/sde.py`: ME-adjusted material quantity.
`if base_quantity <= 0: return 0`, otherwise
`max(runs, ceil(round(runs * base * (1 - ME/100) * (1 - structure_bonus/100), 2)))`. -/
def apply_me (base_quantity me_level : ℤ) (runs : ℤ) (structure_bonus : ℚ) : ℤ :=
  if base_quantity ≤ 0 then 0
  else
    max runs
      ⌈round2 ((runs : ℚ) * (base_quantity : ℚ) * (1 - (me_level : ℚ) / 100) *
        (1 - structure_bonus / 100))⌉

theorem ceil_eval {x : ℚ} {z : ℤ} (h1 : (z : ℚ) - 1 < x) (h2 : x ≤ (z : ℚ)) :
    ⌈x⌉ = z := Int.ceil_eq_iff.mpr ⟨h1, h2⟩

theorem round2_mono {x y : ℚ} (h : x ≤ y) : round2 x ≤ round2 y := by
  unfold round2
  have hz : round (x * 100) ≤ round (y * 100) := by
    rw [round_eq, round_eq]
    exact Int.floor_mono (by linarith)
  have hq : ((round (x * 100) : ℤ) : ℚ) ≤ ((round (y * 100) : ℤ) : ℚ) :=
    Int.cast_le.mpr hz
  exact div_le_div_of_nonneg_right hq (by norm_num) |>.trans_eq rfl

/-- The raw product is monotone non-increasing when one nonneg factor shrinks. -/
theorem raw_mono {A B x y : ℚ} (hA : 0 ≤ A) (hB : 0 ≤ B) (hxy : x ≤ y) :
    A * x * B ≤ A * y * B :=
  mul_le_mul_of_nonneg_right (mul_le_mul_of_nonneg_left hxy hA) hB

/-- C2 — Quantity Adjuster formula: on the claimed domain, `apply_me` equals
`max(runs, ceil(round(runs·base·(1−me/100)·(1−external/100), 2)))`
(round to two decimals, then ceiling, then clamp up to `runs`, in that
order), it returns `0` for non-positive base, and the two concrete spec
values hold: `apply_me 100 10 1 0 = 90` and `apply_me 1 10 1 0 = 1`. -/
theorem apply_me_formula_c2 :
    (∀ (base me runs : ℤ) (sb : ℚ), 0 < base → 1 ≤ runs → 0 ≤ me → me ≤ 10 →
      0 ≤ sb → sb ≤ 100 →
      apply_me base me runs sb =
        max runs
          ⌈((round (((runs : ℚ) * (base : ℚ) * (1 - (me : ℚ) / 100) *
              (1 - sb / 100)) * 100) : ℤ) : ℚ) / 100⌉) ∧
    (∀ (base me runs : ℤ) (sb : ℚ), base ≤ 0 → apply_me base me runs sb = 0) ∧
    apply_me 100 10 1 0 = 90 ∧ apply_me 1 10 1 0 = 1 := by
  refine ⟨fun base me runs sb hb _ _ _ _ _ => ?_, fun base me runs sb hb => ?_, ?_, ?_⟩
  · rw [apply_me, if_neg (by omega)]; rfl
  · rw [apply_me, if_pos hb]
  · have h : (⌈(90 : ℚ)⌉ : ℤ) = 90 := by norm_num
    norm_num [apply_me, round2, round_eq, h]
  · have h : (⌈(9 : ℚ) / 10⌉ : ℤ) = 1 := ceil_eval (by norm_num) (by norm_num)
    norm_num [apply_me, round2, round_eq, h]

theorem apply_me_formula_c2_witness :
    apply_me 20 10 2 0 =
      max 2 ⌈((round ((((2 : ℤ) : ℚ) * ((20 : ℤ) : ℚ) * (1 - ((10 : ℤ) : ℚ) / 100) *
          (1 - (0 : ℚ) / 100)) * 100) : ℤ) : ℚ) / 100⌉ :=
  apply_me_formula_c2.1 20 10 2 0 (by norm_num) (by norm_num) (by norm_num)
    (by norm_num) (by norm_num) (by norm_num)

/-- C8 — the adjuster is monotone non-increasing in the efficiency level and
in the external reduction percentage, other parameters fixed (base ≥ 0,
runs ≥ 1, both percentages inside their domains). -/
theorem apply_me_monotone_c8 :
    (∀ (base me me' runs : ℤ) (sb : ℚ), 0 ≤ base → 1 ≤ runs →
      0 ≤ me → me ≤ me' → me' ≤ 10 → 0 ≤ sb → sb ≤ 100 →
      apply_me base me' runs sb ≤ apply_me base me runs sb) ∧
    (∀ (base me runs : ℤ) (sb sb' : ℚ), 0 ≤ base → 1 ≤ runs →
      0 ≤ me → me ≤ 10 → 0 ≤ sb → sb ≤ sb' → sb' ≤ 100 →
      apply_me base me runs sb' ≤ apply_me base me runs sb) := by
  constructor
  · intro base me me' runs sb hb hr hme hmm hm10 hsb0 hsb1
    unfold apply_me
    by_cases h : base ≤ 0
    · simp [h]
    · rw [if_neg h, if_neg h]
      have hrq : (1 : ℚ) ≤ (runs : ℚ) := by exact_mod_cast hr
      have hbq : (0 : ℚ) ≤ (base : ℚ) := by exact_mod_cast hb
      have hA : (0 : ℚ) ≤ (runs : ℚ) * (base : ℚ) := by nlinarith
      have hB : (0 : ℚ) ≤ 1 - sb / 100 := by linarith
      have hmeq : (me : ℚ) ≤ (me' : ℚ) := by exact_mod_cast hmm
      have hx : (1 : ℚ) - (me' : ℚ) / 100 ≤ 1 - (me : ℚ) / 100 := by linarith
      exact max_le_max (le_refl runs)
        (Int.ceil_mono (round2_mono (raw_mono hA hB hx)))
  · intro base me runs sb sb' hb hr hme hm10 hsb0 hss hs100
    unfold apply_me
    by_cases h : base ≤ 0
    · simp [h]
    · rw [if_neg h, if_neg h]
      have hrq : (1 : ℚ) ≤ (runs : ℚ) := by exact_mod_cast hr
      have hbq : (0 : ℚ) ≤ (base : ℚ) := by exact_mod_cast hb
      have hmq : (me : ℚ) ≤ 10 := by exact_mod_cast hm10
      have hmq0 : (0 : ℚ) ≤ (me : ℚ) := by exact_mod_cast hme
      have hf : (0 : ℚ) ≤ 1 - (me : ℚ) / 100 := by linarith
      have hA : (0 : ℚ) ≤ (runs : ℚ) * (base : ℚ) * (1 - (me : ℚ) / 100) :=
        mul_nonneg (mul_nonneg (le_trans zero_le_one hrq) hbq) hf
      have hx : (1 : ℚ) - sb' / 100 ≤ 1 - sb / 100 := by linarith
      have : (runs : ℚ) * (base : ℚ) * (1 - (me : ℚ) / 100) * (1 - sb' / 100) ≤
          (runs : ℚ) * (base : ℚ) * (1 - (me : ℚ) / 100) * (1 - sb / 100) :=
        mul_le_mul_of_nonneg_left hx hA
      exact max_le_max (le_refl runs) (Int.ceil_mono (round2_mono this))

theorem apply_me_monotone_c8_witness :
    apply_me 100 10 1 0 ≤ apply_me 100 0 1 0 ∧
    apply_me 100 0 1 50 ≤ apply_me 100 0 1 0 :=
  ⟨apply_me_monotone_c8.1 100 0 10 1 0 (by norm_num) (by norm_num) (by norm_num)
      (by norm_num) (by norm_num) (by norm_num) (by norm_num),
    apply_me_monotone_c8.2 100 0 1 0 50 (by norm_num) (by norm_num) (by norm_num)
      (by norm_num) (by norm_num) (by norm_num) (by norm_num)⟩

/-- C9 (counterexample) — with a strictly negative run count and a positive
base, `apply_me` returns a negative number, not zero:
`apply_me 100 0 (-1) 0 = -1`. -/
theorem apply_me_negative_runs_c9_counterexample :
    apply_me 100 0 (-1) 0 = -1 := by
  have h : (⌈(-100 : ℚ)⌉ : ℤ) = -100 := ceil_eval (by norm_num) (by norm_num)
  norm_num [apply_me, round2, round_eq, h]

/-- C9 (amended) — zero-or-negative base normalizes to zero for every
combination of the other parameters, and a run count of exactly zero also
yields zero; but a strictly negative run count with positive base is passed
through `max(runs, ·)` and can surface as a negative result (see the
counterexample). -/
theorem apply_me_degenerate_c9 :
    (∀ (base me runs : ℤ) (sb : ℚ), base ≤ 0 → apply_me base me runs sb = 0) ∧
    (∀ (base me : ℤ) (sb : ℚ), apply_me base me 0 sb = 0) := by
  constructor
  · intro base me runs sb hb
    rw [apply_me, if_pos hb]
  · intro base me sb
    by_cases h : base ≤ 0
    · rw [apply_me, if_pos h]
    · rw [apply_me, if_neg h]
      have h0 : ((0 : ℤ) : ℚ) * (base : ℚ) * (1 - (me : ℚ) / 100) *
          (1 - sb / 100) = 0 := by push_cast; ring
      rw [h0]
      have : round2 (0 : ℚ) = 0 := by norm_num [round2]
      rw [this]
      simp

theorem apply_me_degenerate_c9_witness :
    apply_me (-5) 3 7 2 = 0 ∧ apply_me 100 10 0 (5 : ℚ) = 0 :=
  ⟨apply_me_degenerate_c9.1 (-5) 3 7 2 (by norm_num),
    apply_me_degenerate_c9.2 100 10 (5 : ℚ)⟩

/-! ## The SDE database model

`industryActivityProducts` and `industryActivityMaterials` become row lists;
`invTypes` becomes the `typeName` map.  SQL `WHERE` clauses become filters,
`fetchone` becomes `List.find?`, and `ORDER BY quantity DESC` becomes a
stable descending sort (SQLite enumerates rows deterministically; the sort
key is the quantity). -/

structure ProductRow where
  typeID : ℤ
  activityID : ℤ
  productTypeID : ℤ
  quantity : ℤ
deriving DecidableEq

structure MaterialRow where
  typeID : ℤ
  activityID : ℤ
  materialTypeID : ℤ
  quantity : ℤ
deriving DecidableEq

structure SDEDB where
  products : List ProductRow
  materials : List MaterialRow
  typeName : ℤ → String

/-- The dict returned by `find_source_for_material`. -/
structure RecipeSource where
  blueprint_type_id : ℤ
  activity_id : ℤ
  quantity_per_run : ℤ
deriving DecidableEq

/-- One `{type_id, name, quantity}` row of `get_activity_materials`. -/
structure Mat where
  type_id : ℤ
  name : String
  quantity : ℤ
deriving DecidableEq

/-- `get_activity_materials` from `src/sde.py`: the materials of one
blueprint and activity, joined with names, sorted by quantity descending. -/
def get_activity_materials (db : SDEDB) (blueprint_type_id activity_id : ℤ) :
    List Mat :=
  List.insertionSort (fun a b => b.quantity ≤ a.quantity)
    ((db.materials.filter fun r =>
        r.typeID = blueprint_type_id ∧ r.activityID = activity_id).map
      fun r => ⟨r.materialTypeID, db.typeName r.materialTypeID, r.quantity⟩)

/-- `get_manufacturing_materials` = activity 1 (`ACTIVITY_MANUFACTURING`). -/
def get_manufacturing_materials (db : SDEDB) (blueprint_type_id : ℤ) : List Mat :=
  get_activity_materials db blueprint_type_id 1

/-- `find_source_for_material`: check manufacturing (activityID 1) first,
then reactions (activityID 9); `None` for a terminal raw material. -/
def find_source_for_material (db : SDEDB) (type_id : ℤ) : Option RecipeSource :=
  match db.products.find? (fun r => r.productTypeID = type_id ∧ r.activityID = 1) with
  | some r => some ⟨r.typeID, 1, r.quantity⟩
  | none =>
    match db.products.find? (fun r => r.productTypeID = type_id ∧ r.activityID = 9) with
    | some r => some ⟨r.typeID, 9, r.quantity⟩
    | none => none

/-- Key list of the Python dict comprehension `{tid: None for tid in type_ids}`:
first-occurrence deduplication, insertion order kept. -/
def dedupKeys : List ℤ → List ℤ
  | [] => []
  | t :: ts => t :: (dedupKeys ts).filter (fun x => ¬ x = t)

/-- `result[k] = v` on a dict modelled as an association list whose key is
already present. -/
def setKey (m : List (ℤ × Option RecipeSource)) (k : ℤ) (v : Option RecipeSource) :
    List (ℤ × Option RecipeSource) :=
  m.map fun p => if p.1 = k then (p.1, v) else p

/-- The `for row in ...: result[row["productTypeID"]] = {...}` loops. -/
def applyProductRows (act : ℤ) (rows : List ProductRow)
    (m : List (ℤ × Option RecipeSource)) : List (ℤ × Option RecipeSource) :=
  rows.foldl (fun acc r => setKey acc r.productTypeID (some ⟨r.typeID, act, r.quantity⟩)) m

/-- Dict lookup: `some v` when the key is present with value `v`. -/
def lookupSource (m : List (ℤ × Option RecipeSource)) (t : ℤ) :
    Option (Option RecipeSource) :=
  (m.find? (fun p => p.1 = t)).map (fun p => p.2)

/-- `result = {tid: None for tid in type_ids}`: every requested id starts as
a terminal (no source). -/
def batchInit (type_ids : List ℤ) : List (ℤ × Option RecipeSource) :=
  (dedupKeys type_ids).map (fun t => (t, (none : Option RecipeSource)))

/-- First pass of `get_materials_by_type_ids`: apply the activity-1
(manufacturing) product rows for the requested ids. -/
def batchMfgPass (db : SDEDB) (type_ids : List ℤ) : List (ℤ × Option RecipeSource) :=
  applyProductRows 1
    (db.products.filter (fun r => r.productTypeID ∈ type_ids ∧ r.activityID = 1))
    (batchInit type_ids)

/-- `remaining_ids = [tid for tid in type_ids if result[tid] is None]`. -/
def batchRemaining (db : SDEDB) (type_ids : List ℤ) : List ℤ :=
  type_ids.filter (fun t => lookupSource (batchMfgPass db type_ids) t = some none)

/-- `get_materials_by_type_ids` from `src/sde.py`: batch version of
`find_source_for_material` — initialize every requested id to `None`, apply
the activity-1 rows, then the activity-9 (reaction) rows for the ids still
`None`. -/
def get_materials_by_type_ids (db : SDEDB) (type_ids : List ℤ) :
    List (ℤ × Option RecipeSource) :=
  applyProductRows 9
    (db.products.filter
      (fun r => r.productTypeID ∈ batchRemaining db type_ids ∧ r.activityID = 9))
    (batchMfgPass db type_ids)

def keysOf (m : List (ℤ × Option RecipeSource)) : List ℤ := m.map (fun p => p.1)

theorem keysOf_setKey (m : List (ℤ × Option RecipeSource)) (k : ℤ)
    (v : Option RecipeSource) : keysOf (setKey m k v) = keysOf m := by
  induction m with
  | nil => rfl
  | cons p rest ih =>
    simp only [keysOf, setKey, List.map_cons] at *
    by_cases h : p.1 = k <;> simp [h, ih]

theorem keysOf_applyProductRows (act : ℤ) (rows : List ProductRow)
    (m : List (ℤ × Option RecipeSource)) :
    keysOf (applyProductRows act rows m) = keysOf m := by
  induction rows generalizing m with
  | nil => rfl
  | cons r rs ih => simp [applyProductRows, List.foldl_cons] at *; rw [ih, keysOf_setKey]

theorem lookupSource_cons_pos {p : ℤ × Option RecipeSource}
    {rest : List (ℤ × Option RecipeSource)} {t : ℤ} (h : p.1 = t) :
    lookupSource (p :: rest) t = some p.2 := by
  rw [lookupSource, List.find?_cons_of_pos _ (by simpa using h)]; rfl

theorem lookupSource_cons_neg {p : ℤ × Option RecipeSource}
    {rest : List (ℤ × Option RecipeSource)} {t : ℤ} (h : ¬ p.1 = t) :
    lookupSource (p :: rest) t = lookupSource rest t := by
  rw [lookupSource, List.find?_cons_of_neg _ (by simpa using h)]; rfl

theorem lookupSource_setKey_ne (m : List (ℤ × Option RecipeSource)) (k : ℤ)
    (v : Option RecipeSource) (t : ℤ) (h : ¬ t = k) :
    lookupSource (setKey m k v) t = lookupSource m t := by
  induction m with
  | nil => rfl
  | cons p rest ih =>
    show lookupSource ((if p.1 = k then (p.1, v) else p) :: setKey rest k v) t = _
    by_cases hp : p.1 = t
    · have hpk : ¬ p.1 = k := fun hc => h (by rw [← hp, hc])
      rw [if_neg hpk, lookupSource_cons_pos hp, lookupSource_cons_pos hp]
    · by_cases hpk : p.1 = k
      · rw [if_pos hpk, lookupSource_cons_neg (show ¬ (p.1, v).1 = t from hp),
          lookupSource_cons_neg hp, ih]
      · rw [if_neg hpk, lookupSource_cons_neg hp, lookupSource_cons_neg hp, ih]

theorem lookupSource_setKey_self (m : List (ℤ × Option RecipeSource)) (k : ℤ)
    (v : Option RecipeSource) :
    lookupSource (setKey m k v) k =
      if k ∈ keysOf m then some v else lookupSource m k := by
  induction m with
  | nil => simp [setKey, lookupSource, keysOf]
  | cons p rest ih =>
    show lookupSource ((if p.1 = k then (p.1, v) else p) :: setKey rest k v) k = _
    by_cases hpk : p.1 = k
    · rw [if_pos hpk, lookupSource_cons_pos (show (p.1, v).1 = k from hpk),
        if_pos (show k ∈ keysOf (p :: rest) by simp [keysOf, hpk.symm])]
    · rw [if_neg hpk, lookupSource_cons_neg hpk, ih]
      have hmem : (k ∈ keysOf (p :: rest)) ↔ (k ∈ keysOf rest) := by
        simp only [keysOf, List.map_cons, List.mem_cons]
        exact ⟨fun h => h.resolve_left (fun he => hpk he.symm), Or.inr⟩
      by_cases hm : k ∈ keysOf rest
      · rw [if_pos hm, if_pos (hmem.mpr hm)]
      · rw [if_neg hm, if_neg (fun hc => hm (hmem.mp hc)), lookupSource_cons_neg hpk]

theorem lookupSource_mem_keys {m : List (ℤ × Option RecipeSource)} {t : ℤ}
    {v : Option RecipeSource} (h : lookupSource m t = some v) : t ∈ keysOf m := by
  induction m with
  | nil => simp [lookupSource] at h
  | cons p rest ih =>
    by_cases hp : p.1 = t
    · simp [keysOf, hp.symm]
    · rw [lookupSource_cons_neg hp] at h
      simp [keysOf] at *
      exact Or.inr (ih h)

theorem applyProductRows_no_match (act : ℤ) (rows : List ProductRow)
    (m : List (ℤ × Option RecipeSource)) (t : ℤ)
    (h : ∀ r ∈ rows, ¬ r.productTypeID = t) :
    lookupSource (applyProductRows act rows m) t = lookupSource m t := by
  induction rows generalizing m with
  | nil => rfl
  | cons r rs ih =>
    show lookupSource (applyProductRows act rs (setKey m r.productTypeID _)) t = _
    rw [ih _ (fun x hx => h x (List.mem_cons_of_mem _ hx)),
      lookupSource_setKey_ne _ _ _ _ (fun hc => h r (List.mem_cons_self _ _) hc.symm)]

theorem applyProductRows_const (act : ℤ) (rows : List ProductRow)
    (m : List (ℤ × Option RecipeSource)) (t : ℤ) (v : Option RecipeSource)
    (hl : lookupSource m t = some v)
    (hv : ∀ r ∈ rows, r.productTypeID = t →
      (some (⟨r.typeID, act, r.quantity⟩ : RecipeSource) : Option RecipeSource) = v) :
    lookupSource (applyProductRows act rows m) t = some v := by
  induction rows generalizing m with
  | nil => exact hl
  | cons r rs ih =>
    show lookupSource (applyProductRows act rs (setKey m r.productTypeID _)) t = _
    by_cases hr : r.productTypeID = t
    · refine ih _ ?_ (fun x hx hxt => hv x (List.mem_cons_of_mem _ hx) hxt)
      rw [← hr] at hl ⊢
      rw [lookupSource_setKey_self, if_pos (lookupSource_mem_keys hl),
        hv r (List.mem_cons_self _ _) hr]
    · refine ih _ ?_ (fun x hx hxt => hv x (List.mem_cons_of_mem _ hx) hxt)
      rw [lookupSource_setKey_ne _ _ _ _ (fun hc => hr hc.symm)]
      exact hl

theorem applyProductRows_find (act : ℤ) (rows : List ProductRow)
    (m : List (ℤ × Option RecipeSource)) (t : ℤ) (w : Option RecipeSource)
    (hU : ∀ r1 ∈ rows, ∀ r2 ∈ rows, r1.productTypeID = r2.productTypeID → r1 = r2)
    (hl : lookupSource m t = some w) :
    lookupSource (applyProductRows act rows m) t =
      match rows.find? (fun r => r.productTypeID = t) with
      | some r => some (some ⟨r.typeID, act, r.quantity⟩)
      | none => some w := by
  induction rows generalizing m w with
  | nil => exact hl
  | cons r rs ih =>
    by_cases hr : r.productTypeID = t
    · rw [List.find?_cons_of_pos _ (by simpa using hr)]
      show lookupSource (applyProductRows act rs (setKey m r.productTypeID _)) t = _
      refine applyProductRows_const act rs _ t _ ?_ ?_
      · rw [← hr] at hl ⊢
        rw [lookupSource_setKey_self, if_pos (lookupSource_mem_keys hl)]
      · intro x hx hxt
        have : x = r := hU x (List.mem_cons_of_mem _ hx) r (List.mem_cons_self _ _)
          (by rw [hxt, hr])
        rw [this]
    · rw [List.find?_cons_of_neg _ (by simpa using hr)]
      show lookupSource (applyProductRows act rs (setKey m r.productTypeID _)) t = _
      refine ih _ _ (fun r1 h1 r2 h2 he => hU r1 (List.mem_cons_of_mem _ h1)
        r2 (List.mem_cons_of_mem _ h2) he) ?_
      rw [lookupSource_setKey_ne _ _ _ _ (fun hc => hr hc.symm)]
      exact hl

theorem mem_dedupKeys {t : ℤ} : ∀ {l : List ℤ}, t ∈ dedupKeys l ↔ t ∈ l := by
  intro l
  induction l with
  | nil => simp [dedupKeys]
  | cons a as ih =>
    simp only [dedupKeys, List.mem_cons, List.mem_filter]
    constructor
    · rintro (h | ⟨h, _⟩)
      · exact Or.inl h
      · exact Or.inr (ih.mp h)
    · rintro (h | h)
      · exact Or.inl h
      · by_cases ha : t = a
        · exact Or.inl ha
        · exact Or.inr ⟨ih.mpr h, by simpa using ha⟩

theorem lookupSource_init (l : List ℤ) (t : ℤ) :
    lookupSource (l.map (fun t => (t, (none : Option RecipeSource)))) t =
      if t ∈ l then some none else none := by
  induction l with
  | nil => simp [lookupSource]
  | cons a as ih =>
    by_cases ha : a = t
    · rw [List.map_cons, lookupSource_cons_pos (by simpa using ha), if_pos (by simp [ha])]
    · rw [List.map_cons, lookupSource_cons_neg (by simpa using ha), ih]
      by_cases hm : t ∈ as
      · rw [if_pos hm, if_pos (by simp [hm])]
      · rw [if_neg hm,
          if_neg (fun hc => (List.mem_cons.mp hc).elim (fun h => ha h.symm) hm)]

theorem find?_products_filter (l : List ProductRow) (P : ProductRow → Prop)
    [DecidablePred P] (act t : ℤ)
    (hU : ∀ r1 ∈ l, ∀ r2 ∈ l, r1.productTypeID = r2.productTypeID →
      r1.activityID = r2.activityID → r1 = r2)
    (hP : ∀ r ∈ l, r.productTypeID = t → r.activityID = act → P r) :
    (l.filter (fun r => P r ∧ r.activityID = act)).find?
        (fun r => r.productTypeID = t)
      = l.find? (fun r => r.productTypeID = t ∧ r.activityID = act) := by
  cases h : l.find? (fun r => r.productTypeID = t ∧ r.activityID = act) with
  | some r =>
    have hmem := List.mem_of_find?_eq_some h
    have hprop : r.productTypeID = t ∧ r.activityID = act := by
      simpa using List.find?_some h
    have hrf : r ∈ l.filter (fun r => P r ∧ r.activityID = act) := by
      rw [List.mem_filter]
      exact ⟨hmem, by simpa using ⟨hP r hmem hprop.1 hprop.2, hprop.2⟩⟩
    cases h2 : (l.filter (fun r => P r ∧ r.activityID = act)).find?
        (fun r => r.productTypeID = t) with
    | none =>
      exact absurd (by simpa using hprop.1)
        (by simpa using List.find?_eq_none.mp h2 r hrf)
    | some r' =>
      have hmem' := List.mem_of_find?_eq_some h2
      have hprop' : r'.productTypeID = t := by simpa using List.find?_some h2
      rw [List.mem_filter] at hmem'
      have hact' : r'.activityID = act := by
        have := hmem'.2
        simp at this
        exact this.2
      have : r' = r := hU r' hmem'.1 r hmem (by rw [hprop', hprop.1])
        (by rw [hact', hprop.2])
      rw [this]
  | none =>
    rw [List.find?_eq_none] at h ⊢
    intro x hx
    rw [List.mem_filter] at hx
    have hact : x.activityID = act := by
      have := hx.2; simp at this; exact this.2
    intro hpt
    exact absurd (by simpa using ⟨(by simpa using hpt), hact⟩) (h x hx.1)

theorem batchMfgPass_lookup (db : SDEDB) (type_ids : List ℤ)
    (hU : ∀ r1 ∈ db.products, ∀ r2 ∈ db.products,
      r1.productTypeID = r2.productTypeID → r1.activityID = r2.activityID → r1 = r2)
    (t : ℤ) :
    lookupSource (batchMfgPass db type_ids) t =
      if t ∈ type_ids then
        some (match db.products.find?
            (fun r => r.productTypeID = t ∧ r.activityID = 1) with
          | some r => some ⟨r.typeID, 1, r.quantity⟩
          | none => none)
      else none := by
  by_cases hm : t ∈ type_ids
  · rw [if_pos hm]
    have hl : lookupSource (batchInit type_ids) t = some none := by
      rw [batchInit, lookupSource_init, if_pos (mem_dedupKeys.mpr hm)]
    have hU' : ∀ r1 ∈ db.products.filter
        (fun r => r.productTypeID ∈ type_ids ∧ r.activityID = 1),
        ∀ r2 ∈ db.products.filter
          (fun r => r.productTypeID ∈ type_ids ∧ r.activityID = 1),
        r1.productTypeID = r2.productTypeID → r1 = r2 := by
      intro r1 h1 r2 h2 he
      rw [List.mem_filter] at h1 h2
      have a1 : r1.activityID = 1 := by have := h1.2; simp at this; exact this.2
      have a2 : r2.activityID = 1 := by have := h2.2; simp at this; exact this.2
      exact hU r1 h1.1 r2 h2.1 he (a1.trans a2.symm)
    rw [batchMfgPass, applyProductRows_find 1 _ _ t none hU' hl,
      find?_products_filter db.products (fun r => r.productTypeID ∈ type_ids) 1 t hU
        (fun r _ hpt _ => show r.productTypeID ∈ type_ids by rw [hpt]; exact hm)]
    cases db.products.find? (fun r => r.productTypeID = t ∧ r.activityID = 1) <;> rfl
  · rw [if_neg hm, batchMfgPass,
      applyProductRows_no_match _ _ _ _ (fun r hr hc => by
        rw [List.mem_filter] at hr
        have := hr.2; simp at this
        exact hm (hc ▸ this.1)),
      batchInit, lookupSource_init, if_neg (fun hc => hm (mem_dedupKeys.mp hc))]

/-- C7 — batch catalog lookup agrees with the single lookup: provided the
product table has at most one row per (product, activity) pair,
`get_materials_by_type_ids` holds an entry for every requested id and no
other, absence of a recipe being the explicit `None` value, and each entry
equals `find_source_for_material` for that id (which itself prefers the
activity-1 Standard source over the activity-9 Formula source). -/
theorem get_materials_by_type_ids_c7 (db : SDEDB) (type_ids : List ℤ)
    (hU : ∀ r1 ∈ db.products, ∀ r2 ∈ db.products,
      r1.productTypeID = r2.productTypeID → r1.activityID = r2.activityID → r1 = r2) :
    ∀ t : ℤ, lookupSource (get_materials_by_type_ids db type_ids) t =
      if t ∈ type_ids then some (find_source_for_material db t) else none := by
  intro t
  by_cases hm : t ∈ type_ids
  · rw [if_pos hm]
    cases h1 : db.products.find? (fun r => r.productTypeID = t ∧ r.activityID = 1) with
    | some r1 =>
      have hl1 : lookupSource (batchMfgPass db type_ids) t =
          some (some ⟨r1.typeID, 1, r1.quantity⟩) := by
        rw [batchMfgPass_lookup db type_ids hU t, if_pos hm, h1]
      have hnr : t ∉ batchRemaining db type_ids := by
        rw [batchRemaining, List.mem_filter]
        rintro ⟨-, hc⟩
        simp only [decide_eq_true_eq] at hc
        rw [hl1] at hc
        exact Option.noConfusion (Option.some.inj hc)
      rw [get_materials_by_type_ids,
        applyProductRows_no_match _ _ _ _ (fun r hr hc => by
          rw [List.mem_filter] at hr
          have := hr.2; simp at this
          exact hnr (hc ▸ this.1)),
        hl1, find_source_for_material, h1]
    | none =>
      have hl1 : lookupSource (batchMfgPass db type_ids) t = some none := by
        rw [batchMfgPass_lookup db type_ids hU t, if_pos hm, h1]
      have hrem : t ∈ batchRemaining db type_ids := by
        rw [batchRemaining, List.mem_filter]
        exact ⟨hm, by simp [hl1]⟩
      have hU9 : ∀ r1 ∈ db.products.filter
          (fun r => r.productTypeID ∈ batchRemaining db type_ids ∧ r.activityID = 9),
          ∀ r2 ∈ db.products.filter
            (fun r => r.productTypeID ∈ batchRemaining db type_ids ∧ r.activityID = 9),
          r1.productTypeID = r2.productTypeID → r1 = r2 := by
        intro r1 hr1 r2 hr2 he
        rw [List.mem_filter] at hr1 hr2
        have a1 : r1.activityID = 9 := by have := hr1.2; simp at this; exact this.2
        have a2 : r2.activityID = 9 := by have := hr2.2; simp at this; exact this.2
        exact hU r1 hr1.1 r2 hr2.1 he (a1.trans a2.symm)
      rw [get_materials_by_type_ids, applyProductRows_find 9 _ _ t none hU9 hl1,
        find?_products_filter db.products
          (fun r => r.productTypeID ∈ batchRemaining db type_ids) 9 t hU
          (fun r _ hpt _ => show r.productTypeID ∈ batchRemaining db type_ids by
            rw [hpt]; exact hrem),
        find_source_for_material, h1]
      cases db.products.find? (fun r => r.productTypeID = t ∧ r.activityID = 9) <;> rfl
  · rw [if_neg hm, get_materials_by_type_ids,
      applyProductRows_no_match _ _ _ _ (fun r hr hc => by
        rw [List.mem_filter] at hr
        have := hr.2; simp at this
        have : r.productTypeID ∈ type_ids := by
          have hmem := this.1
          rw [batchRemaining, List.mem_filter] at hmem
          exact hmem.1
        exact hm (hc ▸ this)),
      batchMfgPass_lookup db type_ids hU t, if_neg hm]

/-- A small concrete catalog: blueprint 200 manufactures item 1 (3 per run),
formula 300 reacts item 2 (5 per run); item 3 is raw. -/
def exDb7 : SDEDB :=
  ⟨[⟨200, 1, 1, 3⟩, ⟨300, 9, 2, 5⟩], [], fun _ => "T"⟩

theorem get_materials_by_type_ids_c7_witness :
    lookupSource (get_materials_by_type_ids exDb7 [1, 2, 3]) 2 =
      some (some ⟨300, 9, 5⟩) ∧
    lookupSource (get_materials_by_type_ids exDb7 [1, 2, 3]) 3 = some none := by
  constructor
  · rw [get_materials_by_type_ids_c7 exDb7 [1, 2, 3] (by decide) 2,
      if_pos (by decide)]
    decide
  · rw [get_materials_by_type_ids_c7 exDb7 [1, 2, 3] (by decide) 3,
      if_pos (by decide)]
    decide

/-- One row of the `calculate_materials` result. -/
structure CalcMat where
  type_id : ℤ
  name : String
  base_quantity : ℤ
  base_total : ℤ
  adjusted_quantity : ℤ
  saved : ℤ
deriving DecidableEq

/-- `calculate_materials` from `src/sde.py`: ME-adjusted materials for the
root blueprint only (no recursion). -/
def calculate_materials (db : SDEDB) (blueprint_type_id : ℤ) (me_level : ℤ)
    (runs : ℤ) (structure_bonus : ℚ) : List CalcMat :=
  (get_manufacturing_materials db blueprint_type_id).map fun mat =>
    { type_id := mat.type_id
      name := mat.name
      base_quantity := mat.quantity
      base_total := mat.quantity * runs
      adjusted_quantity := apply_me mat.quantity me_level runs structure_bonus
      saved := mat.quantity * runs - apply_me mat.quantity me_level runs structure_bonus }

/-- On the sensible domain the adjusted quantity never exceeds the
unadjusted base total. -/
theorem apply_me_le_base_total (q me runs : ℤ) (sb : ℚ) (hq : 1 ≤ q)
    (hr : 1 ≤ runs) (hme0 : 0 ≤ me) (hme : me ≤ 10) (hsb0 : 0 ≤ sb)
    (hsb : sb ≤ 100) : apply_me q me runs sb ≤ q * runs := by
  rw [apply_me, if_neg (by omega)]
  have hrq : (1 : ℚ) ≤ (runs : ℚ) := by exact_mod_cast hr
  have hqq : (1 : ℚ) ≤ (q : ℚ) := by exact_mod_cast hq
  have hmq0 : (0 : ℚ) ≤ (me : ℚ) := by exact_mod_cast hme0
  have hmq : (me : ℚ) ≤ 10 := by exact_mod_cast hme
  have hA : (0 : ℚ) ≤ (runs : ℚ) * (q : ℚ) := by nlinarith
  have hf1a : (0 : ℚ) ≤ 1 - (me : ℚ) / 100 := by linarith
  have hf1b : (1 : ℚ) - (me : ℚ) / 100 ≤ 1 := by linarith
  have hf2a : (0 : ℚ) ≤ 1 - sb / 100 := by linarith
  have hf2b : (1 : ℚ) - sb / 100 ≤ 1 := by linarith
  have hraw : (runs : ℚ) * (q : ℚ) * (1 - (me : ℚ) / 100) * (1 - sb / 100) ≤
      (runs : ℚ) * (q : ℚ) := by
    calc (runs : ℚ) * (q : ℚ) * (1 - (me : ℚ) / 100) * (1 - sb / 100)
        ≤ (runs : ℚ) * (q : ℚ) * (1 - (me : ℚ) / 100) :=
          mul_le_of_le_one_right (mul_nonneg hA hf1a) hf2b
      _ ≤ (runs : ℚ) * (q : ℚ) := mul_le_of_le_one_right hA hf1b
  have hr2 : round2 ((runs : ℚ) * (q : ℚ) * (1 - (me : ℚ) / 100) * (1 - sb / 100)) ≤
      (runs : ℚ) * (q : ℚ) := by
    have h1 := round2_mono hraw
    have hint : round2 ((runs : ℚ) * (q : ℚ)) = (runs : ℚ) * (q : ℚ) := by
      rw [round2,
        show ((runs : ℚ) * (q : ℚ)) * 100 = ((runs * q * 100 : ℤ) : ℚ) by push_cast; ring,
        round_intCast]
      push_cast
      ring
    rw [hint] at h1
    exact h1
  have hceil : ⌈round2 ((runs : ℚ) * (q : ℚ) * (1 - (me : ℚ) / 100) *
      (1 - sb / 100))⌉ ≤ runs * q := by
    have hc := Int.ceil_mono hr2
    have h2 : (⌈(runs : ℚ) * (q : ℚ)⌉ : ℤ) = runs * q := by
      rw [show ((runs : ℚ) * (q : ℚ)) = ((runs * q : ℤ) : ℚ) by push_cast; ring,
        Int.ceil_intCast]
    exact hc.trans h2.le
  have hruns : runs ≤ q * runs := le_mul_of_one_le_left (by omega) hq
  exact max_le hruns (by rw [mul_comm q runs]; exact hceil)

/-- C10 — in every `calculate_materials` entry, `saved` is exactly
`base_quantity · runs − adjusted_quantity`, and on the sensible domain
(base ≥ 1, runs ≥ 1, ME 0–10, structure bonus 0–100) the adjustment never
exceeds the base total, so `saved` is non-negative. -/
theorem calculate_materials_saved_c10 (db : SDEDB) (bp me runs : ℤ) (sb : ℚ) :
    ∀ e ∈ calculate_materials db bp me runs sb,
      e.saved = e.base_quantity * runs - e.adjusted_quantity ∧
      (1 ≤ e.base_quantity → 1 ≤ runs → 0 ≤ me → me ≤ 10 → 0 ≤ sb → sb ≤ 100 →
        0 ≤ e.saved) := by
  intro e he
  rw [calculate_materials, List.mem_map] at he
  obtain ⟨mat, -, rfl⟩ := he
  refine ⟨rfl, fun hq hr hme0 hme hsb0 hsb => ?_⟩
  have := apply_me_le_base_total mat.quantity me runs sb hq hr hme0 hme hsb0 hsb
  simp only
  omega

/-- A one-material blueprint for the C10 witness: blueprint 400 needs 100
units of item 5. -/
def exDb10 : SDEDB :=
  ⟨[], [⟨400, 1, 5, 100⟩], fun _ => "M"⟩

theorem apply_me_val_100 : apply_me 100 10 1 0 = 90 := by
  have h : (⌈(90 : ℚ)⌉ : ℤ) = 90 := by norm_num
  norm_num [apply_me, round2, round_eq, h]

theorem calculate_materials_exDb10 :
    calculate_materials exDb10 400 10 1 0 =
      [⟨5, "M", 100, 100, 90, 10⟩] := by
  rw [calculate_materials, get_manufacturing_materials, get_activity_materials]
  norm_num [exDb10, List.filter, List.insertionSort, apply_me_val_100]

theorem calculate_materials_saved_c10_witness :
    ((⟨5, "M", 100, 100, 90, 10⟩ : CalcMat) ∈ calculate_materials exDb10 400 10 1 0) ∧
    (⟨5, "M", 100, 100, 90, 10⟩ : CalcMat).saved =
      (⟨5, "M", 100, 100, 90, 10⟩ : CalcMat).base_quantity * 1 -
        (⟨5, "M", 100, 100, 90, 10⟩ : CalcMat).adjusted_quantity ∧
    0 ≤ (⟨5, "M", 100, 100, 90, 10⟩ : CalcMat).saved := by
  have hmem : (⟨5, "M", 100, 100, 90, 10⟩ : CalcMat) ∈
      calculate_materials exDb10 400 10 1 0 := by
    rw [calculate_materials_exDb10]
    exact List.mem_singleton.mpr rfl
  have h := calculate_materials_saved_c10 exDb10 400 10 1 0 _ hmem
  exact ⟨hmem, h.1, h.2 (by norm_num) (by norm_num) (by norm_num) (by norm_num)
    (by norm_num) (by norm_num)⟩

/-! ## Material chain resolution -/

/-- The `MaterialNode` dataclass of `src/sde.py`. -/
inductive MaterialNode : Type where
  | mk (type_id : ℤ) (name : String) (quantity_needed : ℤ)
       (activity_id : Option ℤ) (activity_name : Option String)
       (blueprint_type_id : Option ℤ) (me_level : ℤ)
       ( is_terminal : Bool) (depth : ℕ)
       (children : List MaterialNode) : MaterialNode

def MaterialNode.type_id : MaterialNode → ℤ
  | .mk t _ _ _ _ _ _ _ _ _ => t

def MaterialNode.name : MaterialNode → String
  | .mk _ n _ _ _ _ _ _ _ _ => n

def MaterialNode.quantity_needed : MaterialNode → ℤ
  | .mk _ _ q _ _ _ _ _ _ _ => q

def MaterialNode.activity_id : MaterialNode → Option ℤ
  | .mk _ _ _ a _ _ _ _ _ _ => a

def MaterialNode.me_level : MaterialNode → ℤ
  | .mk _ _ _ _ _ _ m _ _ _ => m

def MaterialNode.is_terminal : MaterialNode → Bool
  | .mk _ _ _ _ _ _ _ b _ _ => b

def MaterialNode.depth : MaterialNode → ℕ
  | .mk _ _ _ _ _ _ _ _ d _ => d

def MaterialNode.children : MaterialNode → List MaterialNode
  | .mk _ _ _ _ _ _ _ _ _ c => c

/-- The `ACTIVITY_NAMES.get(activity_id, "Unknown")` table. -/
def ACTIVITY_NAMES (a : ℤ) : String :=
  if a = 1 then "Manufacturing"
  else if a = 3 then "Researching TE"
  else if a = 4 then "Researching ME"
  else if a = 5 then "Copying"
  else if a = 7 then "Reverse Engineering"
  else if a = 8 then "Invention"
  else if a = 9 then "Reactions"
  else if a = 11 then "Reactions"
  else "Unknown"

/-- The `adjusted_mats` computation of `resolve_material_chain`: reaction
(activity-9) materials are taken raw at `quantity * runs` (no ME for
formulas); otherwise the manufacturing materials go through `apply_me`.
The `Mat.quantity` field carries the `adjusted_quantity` value. -/
def adjustedInputs (db : SDEDB) (blueprint_type_id me_level runs : ℤ)
    (structure_bonus : ℚ) : List Mat :=
  let reaction_mats := get_activity_materials db blueprint_type_id 9
  if reaction_mats.isEmpty then
    (get_manufacturing_materials db blueprint_type_id).map
      (fun m => ⟨m.type_id, m.name, apply_me m.quantity me_level runs structure_bonus⟩)
  else
    reaction_mats.map (fun m => ⟨m.type_id, m.name, m.quantity * runs⟩)

/-- `pre_fetched_materials[tid]`: the key is always present because `tid`
is drawn from the very list that was queried, so the default never fires. -/
def lookupD (m : List (ℤ × Option RecipeSource)) (t : ℤ) : Option RecipeSource :=
  (lookupSource m t).getD none

/-- `resolve_material_chain` with the recursion depth recast as fuel
`max_depth + 1 − _depth` (the Python guard `_depth > max_depth` is exactly
`fuel = 0`): fuel `0` emits the current manufacturing materials as terminal
nodes, the successor case is the main body.  The `_cache` of the Python
code memoizes `get_materials_by_type_ids` values, which depend only on
`(db, tid)`, so it is semantically transparent and omitted. -/
def resolveFuel (db : SDEDB) (structure_bonus : ℚ) (sub_me : ℤ)
    (resolve_reactions : Bool) :
    ℕ → ℤ → ℤ → ℤ → ℕ → List MaterialNode
  | 0, blueprint_type_id, me_level, runs, d =>
      (get_manufacturing_materials db blueprint_type_id).map fun m =>
        .mk m.type_id m.name (apply_me m.quantity me_level runs structure_bonus)
          none none none me_level true d []
  | fuel + 1, blueprint_type_id, me_level, runs, d =>
      let adjusted_mats := adjustedInputs db blueprint_type_id me_level runs structure_bonus
      let pre_fetched := get_materials_by_type_ids db
        (adjusted_mats.map (fun m => m.type_id))
      adjusted_mats.map fun mat =>
        match lookupD pre_fetched mat.type_id with
        | none => .mk mat.type_id mat.name mat.quantity none none none 0 true d []
        | some source =>
          if source.activity_id = 9 ∧ ¬ resolve_reactions then
            .mk mat.type_id mat.name mat.quantity (some 9) (some "Reactions")
              (some source.blueprint_type_id) 0 true d []
          else
            .mk mat.type_id mat.name mat.quantity (some source.activity_id)
              (some (ACTIVITY_NAMES source.activity_id))
              (some source.blueprint_type_id)
              (if source.activity_id = 9 then 0 else sub_me) false d
              (resolveFuel db structure_bonus sub_me resolve_reactions fuel
                source.blueprint_type_id
                (if source.activity_id = 9 then 0 else sub_me)
                ⌈(mat.quantity : ℚ) / (source.quantity_per_run : ℚ)⌉ (d + 1))

/-- `resolve_material_chain` at the public entry point (`_depth = 0`). -/
def resolve_material_chain (db : SDEDB) (blueprint_type_id me_level runs : ℤ)
    (structure_bonus : ℚ) (sub_me : ℤ) (resolve_reactions : Bool)
    (max_depth : ℕ) : List MaterialNode :=
  resolveFuel db structure_bonus sub_me resolve_reactions (max_depth + 1)
    blueprint_type_id me_level runs 0

mutual
def nodeAll : MaterialNode → List MaterialNode
  | .mk a b c d e f g h i ch => .mk a b c d e f g h i ch :: forestAll ch
def forestAll : List MaterialNode → List MaterialNode
  | [] => []
  | n :: ns => nodeAll n ++ forestAll ns
end

theorem forestAll_cons (n : MaterialNode) (ns : List MaterialNode) :
    forestAll (n :: ns) = nodeAll n ++ forestAll ns := rfl

theorem nodeAll_eq (n : MaterialNode) :
    nodeAll n = n :: forestAll n.children := by
  cases n
  rfl

theorem mem_forestAll {m : MaterialNode} :
    ∀ {ns : List MaterialNode}, m ∈ forestAll ns ↔ ∃ x ∈ ns, m ∈ nodeAll x := by
  intro ns
  induction ns with
  | nil => simp [forestAll]
  | cons n rest ih =>
    rw [forestAll_cons, List.mem_append, ih]
    simp

theorem mem_nodeAll {m x : MaterialNode} :
    m ∈ nodeAll x ↔ m = x ∨ m ∈ forestAll x.children := by
  rw [nodeAll_eq, List.mem_cons]

theorem resolveFuel_depth_le (db : SDEDB) (sb : ℚ) (sub_me : ℤ) (rr : Bool) :
    ∀ (fuel : ℕ) (bp me runs : ℤ) (d : ℕ),
      ∀ n ∈ forestAll (resolveFuel db sb sub_me rr fuel bp me runs d),
        n.depth ≤ d + fuel := by
  intro fuel
  induction fuel with
  | zero =>
    intro bp me runs d n hn
    rw [mem_forestAll] at hn
    obtain ⟨x, hx, hnx⟩ := hn
    rw [resolveFuel, List.mem_map] at hx
    obtain ⟨mat, -, rfl⟩ := hx
    rw [mem_nodeAll] at hnx
    rcases hnx with rfl | h
    · exact Nat.le_add_right d 0 |>.trans_eq rfl
    · simp [MaterialNode.children, forestAll] at h
  | succ fuel ih =>
    intro bp me runs d n hn
    rw [mem_forestAll] at hn
    obtain ⟨x, hx, hnx⟩ := hn
    rw [resolveFuel] at hx
    simp only [List.mem_map] at hx
    obtain ⟨mat, -, rfl⟩ := hx
    rw [mem_nodeAll] at hnx
    cases hsrc : lookupD (get_materials_by_type_ids db
        ((adjustedInputs db bp me runs sb).map (fun m => m.type_id))) mat.type_id with
    | none =>
      rw [hsrc] at hnx
      rcases hnx with rfl | h
      · simp only [MaterialNode.depth]
        omega
      · simp [MaterialNode.children, forestAll] at h
    | some source =>
      rw [hsrc] at hnx
      by_cases hact : source.activity_id = 9 ∧ ¬ rr
      · simp only [if_pos hact] at hnx
        rcases hnx with rfl | h
        · simp only [MaterialNode.depth]; omega
        · simp [MaterialNode.children, forestAll] at h
      · simp only [if_neg hact] at hnx
        rcases hnx with rfl | h
        · simp only [MaterialNode.depth]; omega
        · simp only [MaterialNode.children] at h
          have := ih source.blueprint_type_id
            (if source.activity_id = 9 then 0 else sub_me)
            ⌈(mat.quantity : ℚ) / (source.quantity_per_run : ℚ)⌉ (d + 1) n h
          omega

/-- C3 (amended) — the resolver is total (the fuel `max_depth + 1 − depth`
strictly decreases, so the embedding itself certifies termination even on
cyclic catalogs) and every node of the returned forest has
`depth ≤ max_depth + 1`: the guard branch fires at depth `max_depth + 1`
and emits its terminal nodes at that depth, one level beyond `max_depth`. -/
theorem resolve_depth_c3 (db : SDEDB) (bp me runs : ℤ) (sb : ℚ) (sub_me : ℤ)
    (rr : Bool) (max_depth : ℕ) :
    ∀ n ∈ forestAll (resolve_material_chain db bp me runs sb sub_me rr max_depth),
      n.depth ≤ max_depth + 1 := by
  intro n hn
  have := resolveFuel_depth_le db sb sub_me rr (max_depth + 1) bp me runs 0 n hn
  omega

/-- A deliberately cyclic catalog: blueprint 501 makes item 1 from item 2,
blueprint 502 makes item 2 from item 1 (so item A requires item B requires
item A), one unit each way. -/
def cycDb : SDEDB :=
  ⟨[⟨501, 1, 1, 1⟩, ⟨502, 1, 2, 1⟩], [⟨501, 1, 2, 1⟩, ⟨502, 1, 1, 1⟩], fun _ => "C"⟩

theorem apply_me_1_0_1 : apply_me 1 0 1 0 = 1 := by
  have h : (⌈(1 : ℚ)⌉ : ℤ) = 1 := by norm_num
  norm_num [apply_me, round2, round_eq, h]

theorem apply_me_1_10_1 : apply_me 1 10 1 0 = 1 := by
  have h : (⌈(9 : ℚ) / 10⌉ : ℤ) = 1 := ceil_eval (by norm_num) (by norm_num)
  norm_num [apply_me, round2, round_eq, h]

theorem resolve_cycDb_eval :
    resolve_material_chain cycDb 501 0 1 0 10 true 2 =
      [.mk 2 "C" 1 (some 1) (some "Manufacturing") (some 502) 10 false 0
        [.mk 1 "C" 1 (some 1) (some "Manufacturing") (some 501) 10 false 1
          [.mk 2 "C" 1 (some 1) (some "Manufacturing") (some 502) 10 false 2
            [.mk 1 "C" 1 none none none 10 true 3 []]]]] := by
  norm_num [resolve_material_chain, resolveFuel,
    show adjustedInputs cycDb 501 0 1 0 = [⟨2, "C", 1⟩] from by
      simp [adjustedInputs, show get_activity_materials cycDb 501 9 = [] from by decide,
        show get_manufacturing_materials cycDb 501 = [⟨2, "C", 1⟩] from by decide,
        apply_me_1_0_1],
    show adjustedInputs cycDb 501 10 1 0 = [⟨2, "C", 1⟩] from by
      simp [adjustedInputs, show get_activity_materials cycDb 501 9 = [] from by decide,
        show get_manufacturing_materials cycDb 501 = [⟨2, "C", 1⟩] from by decide,
        apply_me_1_10_1],
    show adjustedInputs cycDb 502 10 1 0 = [⟨1, "C", 1⟩] from by
      simp [adjustedInputs, show get_activity_materials cycDb 502 9 = [] from by decide,
        show get_manufacturing_materials cycDb 502 = [⟨1, "C", 1⟩] from by decide,
        apply_me_1_10_1],
    show lookupD (get_materials_by_type_ids cycDb [2]) 2 = some ⟨502, 1, 1⟩ from by decide,
    show lookupD (get_materials_by_type_ids cycDb [1]) 1 = some ⟨501, 1, 1⟩ from by decide,
    show get_manufacturing_materials cycDb 502 = [⟨1, "C", 1⟩] from by decide,
    apply_me_1_10_1, ACTIVITY_NAMES]

/-- C3 (counterexample) — with `max_depth = 2` on the cyclic catalog the
resolved tree contains a node of depth `3 = max_depth + 1`: the claim
`depth ≤ max_depth` is false as stated. -/
theorem resolve_depth_c3_counterexample :
    ¬ (∀ n ∈ forestAll (resolve_material_chain cycDb 501 0 1 0 10 true 2),
        n.depth ≤ 2) := by
  rw [resolve_cycDb_eval]
  decide

theorem resolve_depth_c3_witness :
    (MaterialNode.mk 1 "C" 1 none none none 10 true 3 []).depth ≤ 2 + 1 := by
  have hmem : MaterialNode.mk 1 "C" 1 none none none 10 true 3 [] ∈
      forestAll (resolve_material_chain cycDb 501 0 1 0 10 true 2) := by
    rw [resolve_cycDb_eval]
    simp [forestAll, nodeAll]
  exact resolve_depth_c3 cycDb 501 0 1 0 10 true 2 _ hmem

/-- C1 — the Chain Resolver recursion step: below the depth guard, an input
item with adjusted quantity `q` whose source is resolvable (and not a
declined reaction) yields a non-terminal node carrying `q`, the source's
activity kind and blueprint id, the child efficiency `0` for a Formula
(activity 9) source and `sub_me` otherwise, whose children are the
recursive resolution at depth `d + 1` with `sub_runs = ceil(q / quantity_per_run)`
runs. -/
theorem resolve_step_c1 (db : SDEDB) (sb : ℚ) (sub_me : ℤ) (rr : Bool)
    (fuel : ℕ) (bp me runs : ℤ) (d : ℕ) (mat : Mat) (source : RecipeSource)
    (hmat : mat ∈ adjustedInputs db bp me runs sb)
    (hsrc : lookupD (get_materials_by_type_ids db
      ((adjustedInputs db bp me runs sb).map (fun m => m.type_id)))
      mat.type_id = some source)
    (hrr : source.activity_id = 9 → rr = true) :
    (MaterialNode.mk mat.type_id mat.name mat.quantity (some source.activity_id)
      (some (ACTIVITY_NAMES source.activity_id)) (some source.blueprint_type_id)
      (if source.activity_id = 9 then 0 else sub_me) false d
      (resolveFuel db sb sub_me rr fuel source.blueprint_type_id
        (if source.activity_id = 9 then 0 else sub_me)
        ⌈(mat.quantity : ℚ) / (source.quantity_per_run : ℚ)⌉ (d + 1)))
    ∈ resolveFuel db sb sub_me rr (fuel + 1) bp me runs d := by
  rw [resolveFuel]
  refine List.mem_map.mpr ⟨mat, hmat, ?_⟩
  simp only [hsrc]
  rw [if_neg (fun hc => hc.2 (hrr hc.1))]

/-- The end-to-end catalog of the spec: blueprint 100 needs 10 units of
intermediate X (item 1) per run; X's blueprint 200 yields 3 X per run and
needs 7 units of raw Y (item 2) per run. -/
def exDbC1 : SDEDB :=
  ⟨[⟨200, 1, 1, 3⟩], [⟨100, 1, 1, 10⟩, ⟨200, 1, 2, 7⟩],
    fun t => if t = 1 then "X" else if t = 2 then "Y" else "R"⟩

theorem apply_me_10_0_2 : apply_me 10 0 2 0 = 20 := by
  have h : (⌈(20 : ℚ)⌉ : ℤ) = 20 := by norm_num
  norm_num [apply_me, round2, round_eq, h]

theorem apply_me_7_10_7 : apply_me 7 10 7 0 = 45 := by
  have h : (⌈(441 : ℚ) / 10⌉ : ℤ) = 45 := ceil_eval (by norm_num) (by norm_num)
  norm_num [apply_me, round2, round_eq, h]

theorem adjustedInputs_exDbC1_root : adjustedInputs exDbC1 100 0 2 0 = [⟨1, "X", 20⟩] := by
  simp [adjustedInputs, show get_activity_materials exDbC1 100 9 = [] from by decide,
    show get_manufacturing_materials exDbC1 100 = [⟨1, "X", 10⟩] from by decide,
    apply_me_10_0_2]

theorem adjustedInputs_exDbC1_sub : adjustedInputs exDbC1 200 10 7 0 = [⟨2, "Y", 45⟩] := by
  simp [adjustedInputs, show get_activity_materials exDbC1 200 9 = [] from by decide,
    show get_manufacturing_materials exDbC1 200 = [⟨2, "Y", 7⟩] from by decide,
    apply_me_7_10_7]

theorem resolveFuel_exDbC1_sub :
    resolveFuel exDbC1 0 10 true 10 200 10 7 1 =
      [.mk 2 "Y" 45 none none none 0 true 1 []] := by
  norm_num [resolveFuel, adjustedInputs_exDbC1_sub,
    show lookupD (get_materials_by_type_ids exDbC1 [2]) 2 = none from by decide]

theorem resolve_step_c1_witness :
    apply_me 10 0 2 0 = 20 ∧
    (⌈((20 : ℤ) : ℚ) / ((3 : ℤ) : ℚ)⌉ : ℤ) = 7 ∧
    apply_me 7 10 7 0 = 45 ∧
    resolveFuel exDbC1 0 10 true 10 200 10 7 1 =
      [.mk 2 "Y" 45 none none none 0 true 1 []] ∧
    (MaterialNode.mk 1 "X" 20 (some 1) (some "Manufacturing") (some 200) 10 false 0
        (resolveFuel exDbC1 0 10 true 10 200 10 7 1))
      ∈ resolveFuel exDbC1 0 10 true 11 100 0 2 0 := by
  have h7 : (⌈((20 : ℤ) : ℚ) / ((3 : ℤ) : ℚ)⌉ : ℤ) = 7 := by
    push_cast
    exact ceil_eval (by norm_num) (by norm_num)
  have h7q : (⌈(20 : ℚ) / (3 : ℚ)⌉ : ℤ) = 7 := ceil_eval (by norm_num) (by norm_num)
  refine ⟨apply_me_10_0_2, h7, apply_me_7_10_7, resolveFuel_exDbC1_sub, ?_⟩
  have hmem := resolve_step_c1 exDbC1 0 10 true 10 100 0 2 0 ⟨1, "X", 20⟩ ⟨200, 1, 3⟩
    (by rw [adjustedInputs_exDbC1_root]; exact List.mem_singleton.mpr rfl)
    (by rw [adjustedInputs_exDbC1_root]; decide)
    (fun h => absurd h (by decide))
  simp only [ACTIVITY_NAMES] at hmem
  norm_num at hmem
  rw [h7q] at hmem
  exact hmem

/-! ## Tree flattening -/

def MaterialNode.activity_name : MaterialNode → Option String
  | .mk _ _ _ _ an _ _ _ _ _ => an

/-- One `{type_id, name, quantity}` entry of the flattened shopping list. -/
structure FlatEntry where
  type_id : ℤ
  name : String
  quantity : ℤ
deriving DecidableEq

/-- The dict update of `_walk`: add `q` to the present entry (keeping its
position and first-seen name) or append a fresh entry at the end
(Python dicts keep insertion order). -/
def addEntry (t : List FlatEntry) (tid : ℤ) (nm : String) (q : ℤ) : List FlatEntry :=
  match t with
  | [] => [⟨tid, nm, q⟩]
  | e :: rest =>
    if e.type_id = tid then ⟨e.type_id, e.name, e.quantity + q⟩ :: rest
    else e :: addEntry rest tid nm q

/-- The walk's stop condition: the node goes on the list (and is not
expanded) when its id is in the buy set, or it is terminal, or childless. -/
def isCut (buy_set : Option (List ℤ)) (n : MaterialNode) : Bool :=
  (match buy_set with
   | some s => decide (n.type_id ∈ s)
   | none => false) || n.is_terminal || n.children.isEmpty

mutual
def walkNode (buy_set : Option (List ℤ)) : MaterialNode → List FlatEntry → List FlatEntry
  | .mk tid nm q _ _ _ _ term _ ch, t =>
    if (match buy_set with
        | some s => decide (tid ∈ s)
        | none => false) || term || ch.isEmpty
    then addEntry t tid nm q
    else walkForest buy_set ch t
def walkForest (buy_set : Option (List ℤ)) : List MaterialNode → List FlatEntry → List FlatEntry
  | [], t => t
  | n :: ns, t => walkForest buy_set ns (walkNode buy_set n t)
end

/-- Python's `sorted(..., key=quantity, reverse=True)` is a stable
descending sort; insertion sort with `b.quantity ≤ a.quantity` is exactly
that. -/
def sortByQuantityDesc (l : List FlatEntry) : List FlatEntry :=
  List.insertionSort (fun a b => b.quantity ≤ a.quantity) l

/-- `flatten_material_tree` from `src/sde.py`. -/
def flatten_material_tree (nodes : List MaterialNode)
    (buy_set : Option (List ℤ)) : List FlatEntry :=
  sortByQuantityDesc (walkForest buy_set nodes [])

theorem walkNode_eq (buy_set : Option (List ℤ)) (n : MaterialNode)
    (t : List FlatEntry) :
    walkNode buy_set n t =
      if isCut buy_set n then addEntry t n.type_id n.name n.quantity_needed
      else walkForest buy_set n.children t := by
  cases n
  rfl

mutual
/-- The visited region of the walk: every node reached, in pre-order; stop
nodes keep none of their descendants. -/
def cutNode (buy_set : Option (List ℤ)) : MaterialNode → List MaterialNode
  | .mk tid nm q a an bp me term d ch =>
    .mk tid nm q a an bp me term d ch ::
      (if (match buy_set with
           | some s => decide (tid ∈ s)
           | none => false) || term || ch.isEmpty
       then []
       else cutForest buy_set ch)
def cutForest (buy_set : Option (List ℤ)) : List MaterialNode → List MaterialNode
  | [] => []
  | n :: ns => cutNode buy_set n ++ cutForest buy_set ns
end

theorem cutNode_eq (buy_set : Option (List ℤ)) (n : MaterialNode) :
    cutNode buy_set n =
      n :: (if isCut buy_set n then [] else cutForest buy_set n.children) := by
  cases n
  rfl

/-- Fold a node list into the totals dict. -/
def aggNodes (t : List FlatEntry) (l : List MaterialNode) : List FlatEntry :=
  l.foldl (fun acc n => addEntry acc n.type_id n.name n.quantity_needed) t

theorem aggNodes_nil (t : List FlatEntry) : aggNodes t [] = t := rfl

theorem aggNodes_cons (t : List FlatEntry) (n : MaterialNode) (l : List MaterialNode) :
    aggNodes t (n :: l) = aggNodes (addEntry t n.type_id n.name n.quantity_needed) l := rfl

theorem aggNodes_append (t : List FlatEntry) (l1 l2 : List MaterialNode) :
    aggNodes t (l1 ++ l2) = aggNodes (aggNodes t l1) l2 := by
  rw [aggNodes, List.foldl_append]
  rfl

mutual
theorem walkNode_eq_agg (buy_set : Option (List ℤ)) (n : MaterialNode)
    (t : List FlatEntry) :
    walkNode buy_set n t =
      aggNodes t ((cutNode buy_set n).filter (fun m => isCut buy_set m)) := by
  match n with
  | .mk tid nm q a an bp me term d ch =>
    rw [walkNode_eq, cutNode_eq]
    simp only [MaterialNode.children, MaterialNode.type_id, MaterialNode.name,
      MaterialNode.quantity_needed]
    by_cases h : isCut buy_set (MaterialNode.mk tid nm q a an bp me term d ch)
    · rw [if_pos h, if_pos h, List.filter_cons_of_pos (by simpa using h)]
      simp only [List.filter_nil]
      rfl
    · rw [if_neg h, if_neg h, List.filter_cons_of_neg (by simpa using h),
        walkForest_eq_agg buy_set ch t]
theorem walkForest_eq_agg (buy_set : Option (List ℤ)) (ns : List MaterialNode)
    (t : List FlatEntry) :
    walkForest buy_set ns t =
      aggNodes t ((cutForest buy_set ns).filter (fun m => isCut buy_set m)) := by
  match ns with
  | [] => rfl
  | n :: rest =>
    show walkForest buy_set rest (walkNode buy_set n t) = _
    rw [walkForest_eq_agg buy_set rest (walkNode buy_set n t),
      walkNode_eq_agg buy_set n t,
      show cutForest buy_set (n :: rest) =
        cutNode buy_set n ++ cutForest buy_set rest from rfl,
      List.filter_append, aggNodes_append]
end

def keysF (l : List FlatEntry) : List ℤ := l.map (fun e => e.type_id)

/-- Total quantity credited to item `k` in a totals list. -/
def entryQ (l : List FlatEntry) (k : ℤ) : ℤ :=
  ((l.filter (fun e => e.type_id = k)).map (fun e => e.quantity)).sum

def totalQ (l : List FlatEntry) : ℤ := (l.map (fun e => e.quantity)).sum

/-- Total `quantity_needed` of the occurrences of item `k` in a node list. -/
def nodesQ (l : List MaterialNode) (k : ℤ) : ℤ :=
  ((l.filter (fun n => n.type_id = k)).map (fun n => n.quantity_needed)).sum

theorem keysF_cons (e : FlatEntry) (l : List FlatEntry) :
    keysF (e :: l) = e.type_id :: keysF l := rfl

theorem entryQ_nil (k : ℤ) : entryQ [] k = 0 := rfl

theorem entryQ_cons (e : FlatEntry) (l : List FlatEntry) (k : ℤ) :
    entryQ (e :: l) k = (if e.type_id = k then e.quantity else 0) + entryQ l k := by
  by_cases h : e.type_id = k <;> simp [entryQ, List.filter_cons, h]

theorem totalQ_cons (e : FlatEntry) (l : List FlatEntry) :
    totalQ (e :: l) = e.quantity + totalQ l := by simp [totalQ]

theorem nodesQ_nil (k : ℤ) : nodesQ [] k = 0 := rfl

theorem nodesQ_cons (n : MaterialNode) (l : List MaterialNode) (k : ℤ) :
    nodesQ (n :: l) k = (if n.type_id = k then n.quantity_needed else 0) + nodesQ l k := by
  by_cases h : n.type_id = k <;> simp [nodesQ, List.filter_cons, h]

theorem keysF_addEntry (t : List FlatEntry) (tid : ℤ) (nm : String) (q : ℤ) :
    keysF (addEntry t tid nm q) =
      if tid ∈ keysF t then keysF t else keysF t ++ [tid] := by
  induction t with
  | nil => simp [addEntry, keysF]
  | cons e rest ih =>
    rw [addEntry]
    by_cases he : e.type_id = tid
    · rw [if_pos he, if_pos (by rw [keysF_cons]; exact List.mem_cons.mpr (Or.inl he.symm))]
      rw [keysF_cons, keysF_cons]
    · rw [if_neg he]
      have hmem : (tid ∈ keysF (e :: rest)) ↔ (tid ∈ keysF rest) := by
        rw [keysF_cons, List.mem_cons]
        exact ⟨fun h => h.resolve_left (fun hc => he hc.symm), Or.inr⟩
      by_cases hm : tid ∈ keysF rest
      · rw [if_pos (hmem.mpr hm), keysF_cons, ih, if_pos hm, keysF_cons]
      · rw [if_neg (fun hc => hm (hmem.mp hc)), keysF_cons, ih, if_neg hm, keysF_cons,
          List.cons_append]

theorem entryQ_addEntry (t : List FlatEntry) (tid : ℤ) (nm : String) (q k : ℤ) :
    entryQ (addEntry t tid nm q) k = entryQ t k + (if k = tid then q else 0) := by
  induction t with
  | nil =>
    rw [addEntry, entryQ_cons, entryQ_nil]
    dsimp only
    by_cases hk : k = tid
    · rw [if_pos hk, if_pos hk.symm]
      ring
    · rw [if_neg hk, if_neg (fun hc => hk hc.symm)]
  | cons e rest ih =>
    rw [addEntry]
    by_cases he : e.type_id = tid
    · rw [if_pos he, entryQ_cons, entryQ_cons]
      dsimp only
      by_cases hk : k = tid
      · have hek : e.type_id = k := by rw [he, hk]
        rw [if_pos hek, if_pos hek, if_pos hk]
        ring
      · have hek : ¬ e.type_id = k := fun hc => hk (by rw [← hc, he])
        rw [if_neg hek, if_neg hek, if_neg hk]
        ring
    · rw [if_neg he, entryQ_cons, entryQ_cons, ih]
      ring

theorem totalQ_addEntry (t : List FlatEntry) (tid : ℤ) (nm : String) (q : ℤ) :
    totalQ (addEntry t tid nm q) = totalQ t + q := by
  induction t with
  | nil => simp [addEntry, totalQ]
  | cons e rest ih =>
    rw [addEntry]
    by_cases he : e.type_id = tid
    · rw [if_pos he, totalQ_cons, totalQ_cons]
      dsimp only
      ring
    · rw [if_neg he, totalQ_cons, totalQ_cons, ih]
      ring

theorem entryQ_aggNodes (l : List MaterialNode) :
    ∀ (t : List FlatEntry) (k : ℤ),
      entryQ (aggNodes t l) k = entryQ t k + nodesQ l k := by
  induction l with
  | nil => intro t k; rw [aggNodes_nil, nodesQ_nil]; ring
  | cons n rest ih =>
    intro t k
    rw [aggNodes_cons, ih, entryQ_addEntry, nodesQ_cons]
    by_cases hk : n.type_id = k
    · rw [if_pos hk, if_pos hk.symm]
      ring
    · rw [if_neg hk, if_neg (fun hc => hk hc.symm)]
      ring

theorem totalQ_aggNodes (l : List MaterialNode) :
    ∀ t : List FlatEntry,
      totalQ (aggNodes t l) = totalQ t + (l.map (fun n => n.quantity_needed)).sum := by
  induction l with
  | nil => intro t; rw [aggNodes_nil]; simp
  | cons n rest ih =>
    intro t
    rw [aggNodes_cons, ih, totalQ_addEntry, List.map_cons, List.sum_cons]
    ring

theorem keysF_aggNodes_mem (l : List MaterialNode) :
    ∀ (t : List FlatEntry) (k : ℤ),
      k ∈ keysF (aggNodes t l) ↔ k ∈ keysF t ∨ k ∈ l.map (fun n => n.type_id) := by
  induction l with
  | nil => intro t k; rw [aggNodes_nil]; simp
  | cons n rest ih =>
    intro t k
    rw [aggNodes_cons, ih, keysF_addEntry]
    by_cases hm : n.type_id ∈ keysF t
    · rw [if_pos hm]
      simp only [List.map_cons, List.mem_cons]
      constructor
      · tauto
      · rintro (h | rfl | h)
        · exact Or.inl h
        · exact Or.inl hm
        · exact Or.inr h
    · rw [if_neg hm]
      simp only [List.mem_append, List.mem_singleton, List.map_cons, List.mem_cons]
      tauto

theorem keysF_aggNodes_nodup (l : List MaterialNode) :
    ∀ t : List FlatEntry, (keysF t).Nodup → (keysF (aggNodes t l)).Nodup := by
  induction l with
  | nil => exact fun t h => h
  | cons n rest ih =>
    intro t hnd
    rw [aggNodes_cons]
    refine ih _ ?_
    rw [keysF_addEntry]
    by_cases hm : n.type_id ∈ keysF t
    · rw [if_pos hm]; exact hnd
    · rw [if_neg hm]
      simp [List.nodup_append, hnd, hm]

theorem entryQ_eq_zero_of_not_mem {l : List FlatEntry} {k : ℤ}
    (h : k ∉ keysF l) : entryQ l k = 0 := by
  induction l with
  | nil => rfl
  | cons e rest ih =>
    rw [keysF_cons] at h
    rw [entryQ_cons, if_neg (fun hc => h (List.mem_cons.mpr (Or.inl hc.symm))),
      ih (fun hc => h (List.mem_cons.mpr (Or.inr hc)))]
    ring

theorem entryQ_of_mem_nodup {l : List FlatEntry} {e : FlatEntry}
    (hnd : (keysF l).Nodup) (he : e ∈ l) : entryQ l e.type_id = e.quantity := by
  induction l with
  | nil => simp at he
  | cons x rest ih =>
    rw [keysF_cons, List.nodup_cons] at hnd
    rcases List.mem_cons.mp he with rfl | hmem
    · rw [entryQ_cons, if_pos rfl,
        entryQ_eq_zero_of_not_mem hnd.1]
      ring
    · have hne : ¬ x.type_id = e.type_id := by
        intro hc
        exact hnd.1 (hc ▸ List.mem_map.mpr ⟨e, hmem, rfl⟩)
      rw [entryQ_cons, if_neg hne, ih hnd.2 hmem]
      ring

instance : IsTotal FlatEntry (fun a b => b.quantity ≤ a.quantity) :=
  ⟨fun a b => le_total b.quantity a.quantity⟩

instance : IsTrans FlatEntry (fun a b => b.quantity ≤ a.quantity) :=
  ⟨fun _ _ _ h1 h2 => le_trans h2 h1⟩

theorem sortByQuantityDesc_perm (l : List FlatEntry) :
    (sortByQuantityDesc l).Perm l :=
  List.perm_insertionSort _ l

theorem sortByQuantityDesc_sorted (l : List FlatEntry) :
    List.Sorted (fun a b => b.quantity ≤ a.quantity) (sortByQuantityDesc l) :=
  List.sorted_insertionSort _ l

theorem entryQ_perm {l1 l2 : List FlatEntry} (h : l1.Perm l2) (k : ℤ) :
    entryQ l1 k = entryQ l2 k :=
  ((h.filter _).map _).sum_eq

theorem totalQ_perm {l1 l2 : List FlatEntry} (h : l1.Perm l2) :
    totalQ l1 = totalQ l2 :=
  (h.map _).sum_eq

theorem orderedInsert_filter_q (e : FlatEntry) (q0 : ℤ) :
    ∀ l : List FlatEntry,
      (List.orderedInsert (fun a b => b.quantity ≤ a.quantity) e l).filter
          (fun x => x.quantity = q0) =
        if e.quantity = q0
        then e :: l.filter (fun x => x.quantity = q0)
        else l.filter (fun x => x.quantity = q0) := by
  intro l
  induction l with
  | nil =>
    rw [List.orderedInsert]
    by_cases he : e.quantity = q0 <;> simp [List.filter_cons, he]
  | cons b rest ih =>
    rw [List.orderedInsert]
    by_cases hr : b.quantity ≤ e.quantity
    · rw [if_pos hr]
      by_cases he : e.quantity = q0 <;> simp [List.filter_cons, he]
    · rw [if_neg hr]
      by_cases hb : b.quantity = q0
      · have hne : ¬ e.quantity = q0 := fun hc => hr (le_of_eq (by rw [hb, hc]))
        simp [List.filter_cons, hb, hne, ih]
      · by_cases he : e.quantity = q0 <;> simp [List.filter_cons, hb, he, ih]

theorem sortByQuantityDesc_filter (l : List FlatEntry) (q0 : ℤ) :
    (sortByQuantityDesc l).filter (fun x => x.quantity = q0) =
      l.filter (fun x => x.quantity = q0) := by
  induction l with
  | nil => rfl
  | cons x rest ih =>
    rw [sortByQuantityDesc, List.insertionSort, orderedInsert_filter_q]
    rw [sortByQuantityDesc] at ih
    by_cases hx : x.quantity = q0
    · rw [if_pos hx, ih, List.filter_cons_of_pos (by simpa using hx)]
    · rw [if_neg hx, ih, List.filter_cons_of_neg (by simpa using hx)]

/-- Trees the resolver actually produces: terminal nodes carry no
children. -/
def wfForest (ns : List MaterialNode) : Prop :=
  ∀ n ∈ forestAll ns, n.is_terminal = true → n.children.isEmpty = true

mutual
theorem cutNode_wf_filter (n : MaterialNode)
    (h : ∀ m ∈ nodeAll n, m.is_terminal = true → m.children.isEmpty = true) :
    (cutNode none n).filter (fun m => isCut none m) =
      (nodeAll n).filter (fun m => isCut none m) := by
  match n with
  | .mk tid nm q a an bp me term d ch =>
    rw [cutNode_eq, nodeAll_eq]
    simp only [MaterialNode.children]
    by_cases hc : isCut none (MaterialNode.mk tid nm q a an bp me term d ch)
    · rw [List.filter_cons_of_pos (by simpa using hc),
        List.filter_cons_of_pos (by simpa using hc)]
      have hch : ch = [] := by
        have := hc
        simp only [isCut, MaterialNode.is_terminal, MaterialNode.children] at this
        rcases Bool.or_eq_true_iff.mp this with h1 | h2
        · rcases Bool.or_eq_true_iff.mp h1 with h3 | h4
          · simp at h3
          · exact List.isEmpty_iff.mp
              (h _ (List.mem_cons_self _ _) h4)
        · exact List.isEmpty_iff.mp h2
      rw [if_pos hc]
      subst hch
      rfl
    · rw [List.filter_cons_of_neg (by simpa using hc),
        List.filter_cons_of_neg (by simpa using hc), if_neg hc]
      refine cutForest_wf_filter ch (fun m hm ht => ?_)
      refine h m ?_ ht
      rw [nodeAll_eq]
      refine List.mem_cons_of_mem _ ?_
      simpa [MaterialNode.children] using hm
theorem cutForest_wf_filter (ns : List MaterialNode) (h : wfForest ns) :
    (cutForest none ns).filter (fun m => isCut none m) =
      (forestAll ns).filter (fun m => isCut none m) := by
  match ns with
  | [] => rfl
  | n :: rest =>
    have h1 : ∀ m ∈ nodeAll n, m.is_terminal = true → m.children.isEmpty = true := by
      intro m hm ht
      refine h m ?_ ht
      rw [forestAll_cons, List.mem_append]
      exact Or.inl hm
    have h2 : wfForest rest := by
      intro m hm ht
      refine h m ?_ ht
      rw [forestAll_cons, List.mem_append]
      exact Or.inr hm
    rw [show cutForest none (n :: rest) = cutNode none n ++ cutForest none rest from rfl,
      forestAll_cons, List.filter_append, List.filter_append,
      cutNode_wf_filter n h1, cutForest_wf_filter rest h2]
end

theorem keysF_def (l : List FlatEntry) :
    keysF l = l.map (fun e => e.type_id) := rfl

/-- C4 — flatten without override: one entry per distinct item occurring at
a terminal-or-childless node, each entry's quantity the sum over that
item's occurrences at such nodes, the grand total preserved, and the list
sorted by descending quantity with ties kept in first-encountered
(aggregation) order. -/
theorem flatten_no_override_c4 (ns : List MaterialNode) (hwf : wfForest ns) :
    (∀ k : ℤ, (keysF (flatten_material_tree ns none)).count k =
      if k ∈ ((forestAll ns).filter (fun n => isCut none n)).map (fun n => n.type_id)
      then 1 else 0) ∧
    (∀ e ∈ flatten_material_tree ns none,
      e.quantity = nodesQ ((forestAll ns).filter (fun n => isCut none n)) e.type_id) ∧
    totalQ (flatten_material_tree ns none) =
      (((forestAll ns).filter (fun n => isCut none n)).map
        (fun n => n.quantity_needed)).sum ∧
    List.Sorted (fun a b => b.quantity ≤ a.quantity) (flatten_material_tree ns none) ∧
    (∀ q0 : ℤ, (flatten_material_tree ns none).filter (fun e => e.quantity = q0) =
      (walkForest none ns []).filter (fun e => e.quantity = q0)) := by
  have hwalk : walkForest none ns [] =
      aggNodes [] ((forestAll ns).filter (fun n => isCut none n)) := by
    rw [walkForest_eq_agg, cutForest_wf_filter ns hwf]
  have hperm : (flatten_material_tree ns none).Perm (walkForest none ns []) :=
    sortByQuantityDesc_perm _
  have hnodup : (keysF (aggNodes []
      ((forestAll ns).filter (fun n => isCut none n)))).Nodup :=
    keysF_aggNodes_nodup _ [] (by simp [keysF])
  refine ⟨?_, ?_, ?_, sortByQuantityDesc_sorted _, ?_⟩
  · intro k
    have hc : (keysF (flatten_material_tree ns none)).count k =
        (keysF (walkForest none ns [])).count k := by
      rw [keysF_def, keysF_def]
      exact (hperm.map (fun e => e.type_id)).count_eq k
    rw [hc, hwalk]
    by_cases hm : k ∈ ((forestAll ns).filter
        (fun n => isCut none n)).map (fun n => n.type_id)
    · rw [if_pos hm]
      exact List.count_eq_one_of_mem hnodup
        ((keysF_aggNodes_mem _ [] k).mpr (Or.inr hm))
    · rw [if_neg hm]
      refine List.count_eq_zero.mpr (fun hc => ?_)
      rcases (keysF_aggNodes_mem _ [] k).mp hc with h | h
      · simp [keysF] at h
      · exact hm h
  · intro e he
    have he2 : e ∈ aggNodes [] ((forestAll ns).filter (fun n => isCut none n)) := by
      rw [← hwalk]
      exact hperm.mem_iff.mp he
    have := entryQ_of_mem_nodup hnodup he2
    rw [entryQ_aggNodes, entryQ_nil, zero_add] at this
    exact this.symm
  · rw [totalQ_perm hperm, hwalk, totalQ_aggNodes,
      show totalQ [] = 0 from rfl, zero_add]
  · intro q0
    exact sortByQuantityDesc_filter _ q0

/-- A small well-formed tree for the C4 witness: a terminal 5×item-7 leaf,
and a non-terminal item-8 node whose child is a terminal 3×item-7 leaf. -/
def exTree4 : List MaterialNode :=
  [⟨7, "a", 5, none, none, none, 0, true, 0, []⟩,
   ⟨8, "b", 2, some 1, some "Manufacturing", some 77, 0, false, 0,
     [⟨7, "a", 3, none, none, none, 0, true, 1, []⟩]⟩]

theorem flatten_no_override_c4_witness :
    wfForest exTree4 ∧
    (keysF (flatten_material_tree exTree4 none)).count 7 = 1 ∧
    totalQ (flatten_material_tree exTree4 none) = 8 ∧
    List.Sorted (fun a b => b.quantity ≤ a.quantity)
      (flatten_material_tree exTree4 none) := by
  have hwf : wfForest exTree4 := by
    show ∀ n ∈ forestAll exTree4, n.is_terminal = true → n.children.isEmpty = true
    decide
  have h := flatten_no_override_c4 exTree4 hwf
  refine ⟨hwf, ?_, ?_, h.2.2.2.1⟩
  · rw [h.1 7, if_pos (by decide)]
  · rw [h.2.2.1]
    decide

mutual
/-- Replace the children of every node whose item is in the buy set by `[]`:
the walk never looks at them, so flattening is invariant under this. -/
def pruneBuyN (s : List ℤ) : MaterialNode → MaterialNode
  | .mk tid nm q a an bp me term d ch =>
    .mk tid nm q a an bp me term d (if tid ∈ s then [] else pruneBuyF s ch)
def pruneBuyF (s : List ℤ) : List MaterialNode → List MaterialNode
  | [] => []
  | n :: ns => pruneBuyN s n :: pruneBuyF s ns
end

theorem pruneBuyF_isEmpty (s : List ℤ) (ch : List MaterialNode) :
    (pruneBuyF s ch).isEmpty = ch.isEmpty := by
  cases ch <;> rfl

mutual
theorem walkNode_prune (s : List ℤ) (n : MaterialNode) (t : List FlatEntry) :
    walkNode (some s) (pruneBuyN s n) t = walkNode (some s) n t := by
  match n with
  | .mk tid nm q a an bp me term d ch =>
    by_cases hs : tid ∈ s
    · rw [show pruneBuyN s (.mk tid nm q a an bp me term d ch) =
          .mk tid nm q a an bp me term d [] from by rw [pruneBuyN, if_pos hs]]
      rw [walkNode, walkNode]
      simp [hs]
    · rw [show pruneBuyN s (.mk tid nm q a an bp me term d ch) =
          .mk tid nm q a an bp me term d (pruneBuyF s ch) from by
            rw [pruneBuyN, if_neg hs]]
      rw [walkNode, walkNode]
      simp only [show (decide (tid ∈ s)) = false from decide_eq_false hs,
        pruneBuyF_isEmpty, Bool.false_or]
      by_cases hcut : (term || ch.isEmpty) = true
      · rw [if_pos hcut, if_pos hcut]
      · rw [if_neg hcut, if_neg hcut]
        exact walkForest_prune s ch t
theorem walkForest_prune (s : List ℤ) (ns : List MaterialNode) (t : List FlatEntry) :
    walkForest (some s) (pruneBuyF s ns) t = walkForest (some s) ns t := by
  match ns with
  | [] => rfl
  | n :: rest =>
    show walkForest (some s) (pruneBuyF s rest) (walkNode (some s) (pruneBuyN s n) t) = _
    rw [walkForest_prune s rest, walkNode_prune s n t]
    rfl
end

theorem nodesQ_filter_of (l : List MaterialNode) (p : MaterialNode → Bool) (k : ℤ)
    (h : ∀ n ∈ l, n.type_id = k → p n = true) :
    nodesQ (l.filter p) k = nodesQ l k := by
  induction l with
  | nil => rfl
  | cons n rest ih =>
    by_cases hp : p n = true
    · rw [List.filter_cons_of_pos hp, nodesQ_cons, nodesQ_cons,
        ih (fun m hm hmk => h m (List.mem_cons_of_mem _ hm) hmk)]
    · have hnk : ¬ n.type_id = k := fun hc => hp (h n (List.mem_cons_self _ _) hc)
      rw [List.filter_cons_of_neg hp, nodesQ_cons, if_neg hnk, zero_add,
        ih (fun m hm hmk => h m (List.mem_cons_of_mem _ hm) hmk)]

/-- C5 (amended) — flatten with a buy override never recurses past a node
whose item is in the override set: the result is unchanged when the
children of every such node are discarded wholesale; and the entry of an
override item sums that item's own `quantity_needed` over exactly the
occurrences the walk reaches (those not strictly below another stopped
node), its children contributing nothing. -/
theorem flatten_buy_override_c5 (ns : List MaterialNode) (s : List ℤ) :
    flatten_material_tree ns (some s) =
      flatten_material_tree (pruneBuyF s ns) (some s) ∧
    ∀ k ∈ s, entryQ (flatten_material_tree ns (some s)) k =
      nodesQ (cutForest (some s) ns) k := by
  constructor
  · rw [flatten_material_tree, flatten_material_tree, walkForest_prune]
  · intro k hk
    rw [flatten_material_tree, entryQ_perm (sortByQuantityDesc_perm _) k,
      walkForest_eq_agg, entryQ_aggNodes, entryQ_nil, zero_add]
    refine nodesQ_filter_of _ _ k (fun n _ htid => ?_)
    rw [isCut, htid]
    simp [hk]

/-- C5 (counterexample) — on the resolved cyclic tree with override set
`{1, 2}`, the entry for item 2 carries only the root occurrence's quantity
(1), while the sum of `quantity_needed` over all occurrences of item 2 in
the whole tree is 2: the claim's "sum across all its occurrences in the
tree" fails for occurrences nested beneath another override node. -/
theorem flatten_buy_override_c5_counterexample :
    entryQ (flatten_material_tree
      (resolve_material_chain cycDb 501 0 1 0 10 true 2) (some [1, 2])) 2 = 1 ∧
    nodesQ (forestAll (resolve_material_chain cycDb 501 0 1 0 10 true 2)) 2 = 2 := by
  rw [resolve_cycDb_eval]
  exact ⟨by decide, by decide⟩

theorem flatten_buy_override_c5_witness :
    flatten_material_tree exTree4 (some [8]) =
      flatten_material_tree (pruneBuyF [8] exTree4) (some [8]) ∧
    entryQ (flatten_material_tree exTree4 (some [8])) 8 =
      nodesQ (cutForest (some [8]) exTree4) 8 :=
  ⟨(flatten_buy_override_c5 exTree4 [8]).1,
    (flatten_buy_override_c5 exTree4 [8]).2 8 (by decide)⟩

/-! ## Chain summary -/

/-- One entry of the `intermediates` list of `get_chain_summary`. -/
structure IntermediateEntry where
  type_id : ℤ
  name : String
  quantity : ℤ
  activity_name : Option String
  me_level : ℤ
deriving DecidableEq

/-- The dict returned by `get_chain_summary`. -/
structure ChainSummary where
  max_depth : ℕ
  total_intermediate_types : ℕ
  total_terminal_types : ℕ
  intermediates : List IntermediateEntry
deriving DecidableEq

mutual
/-- The `_walk` of `get_chain_summary`: state is
(intermediates list, terminal-id set as an insertion-ordered duplicate-free
list, running max depth).  `max_depth` is updated for every visited node
before the branch, exactly as in the source. -/
def sumNode : MaterialNode →
    List IntermediateEntry × List ℤ × ℕ → List IntermediateEntry × List ℤ × ℕ
  | .mk tid nm q _ an _ me term d ch, (ints, tids, md) =>
    if term || ch.isEmpty then
      (ints, if tid ∈ tids then tids else tids ++ [tid], max md d)
    else
      sumForest ch (ints ++ [⟨tid, nm, q, an, me⟩], tids, max md d)
def sumForest : List MaterialNode →
    List IntermediateEntry × List ℤ × ℕ → List IntermediateEntry × List ℤ × ℕ
  | [], st => st
  | n :: ns, st => sumForest ns (sumNode n st)
end

/-- `get_chain_summary` from `src/sde.py`. -/
def get_chain_summary (nodes : List MaterialNode) : ChainSummary :=
  let st := sumForest nodes ([], [], 0)
  ⟨st.2.2, st.1.length, st.2.1.length, st.1⟩

/-- Repeated set insertion (the model of `terminal_ids.add`). -/
def foldIns (acc : List ℤ) (l : List ℤ) : List ℤ :=
  l.foldl (fun a x => if x ∈ a then a else a ++ [x]) acc

theorem foldIns_nil (acc : List ℤ) : foldIns acc [] = acc := rfl

theorem foldIns_cons (acc : List ℤ) (x : ℤ) (l : List ℤ) :
    foldIns acc (x :: l) = foldIns (if x ∈ acc then acc else acc ++ [x]) l := rfl

theorem isCut_none_eq (tid : ℤ) (nm : String) (q : ℤ) (a : Option ℤ)
    (an : Option String) (bp : Option ℤ) (me : ℤ) (term : Bool) (d : ℕ)
    (ch : List MaterialNode) :
    isCut none (.mk tid nm q a an bp me term d ch) = (term || ch.isEmpty) := by
  rw [isCut]
  rfl

mutual
theorem sumNode_spec (n : MaterialNode) (st : List IntermediateEntry × List ℤ × ℕ) :
    sumNode n st =
      (st.1 ++ ((cutNode none n).filter (fun m => ¬ isCut none m)).map
        (fun m => ⟨m.type_id, m.name, m.quantity_needed, m.activity_name, m.me_level⟩),
       foldIns st.2.1 (((cutNode none n).filter (fun m => isCut none m)).map
        (fun m => m.type_id)),
       max st.2.2 (((cutNode none n).map (fun m => m.depth)).foldr max 0)) := by
  match n, st with
  | .mk tid nm q a an bp me term d ch, (ints, tids, md) =>
    rw [cutNode_eq]
    simp only [MaterialNode.children]
    by_cases hcut : (term || ch.isEmpty) = true
    · have hcutP : isCut none (.mk tid nm q a an bp me term d ch) = true := by
        rw [isCut_none_eq]; exact hcut
      rw [sumNode, if_pos hcut, if_pos hcutP,
        List.filter_cons_of_neg (by simp [hcutP]),
        List.filter_cons_of_pos (by simp [hcutP])]
      simp only [List.filter_nil, List.map_nil, List.append_nil, List.map_cons,
        List.foldr_cons, List.foldr_nil, Nat.max_zero, foldIns_cons, foldIns_nil,
        MaterialNode.type_id, MaterialNode.depth]
    · have hcutF : isCut none (.mk tid nm q a an bp me term d ch) = false := by
        rw [isCut_none_eq]; simpa using hcut
      rw [sumNode, if_neg hcut, if_neg (by simp [hcutF]),
        List.filter_cons_of_pos (by simp [hcutF]),
        List.filter_cons_of_neg (by simp [hcutF]),
        sumForest_spec ch
          (ints ++ [(⟨tid, nm, q, an, me⟩ : IntermediateEntry)], tids, max md d)]
      simp only [List.map_cons, List.foldr_cons, MaterialNode.type_id,
        MaterialNode.name, MaterialNode.quantity_needed, MaterialNode.activity_name,
        MaterialNode.me_level, MaterialNode.depth, List.append_assoc,
        List.singleton_append, Nat.max_assoc]
theorem sumForest_spec (ns : List MaterialNode)
    (st : List IntermediateEntry × List ℤ × ℕ) :
    sumForest ns st =
      (st.1 ++ ((cutForest none ns).filter (fun m => ¬ isCut none m)).map
        (fun m => ⟨m.type_id, m.name, m.quantity_needed, m.activity_name, m.me_level⟩),
       foldIns st.2.1 (((cutForest none ns).filter (fun m => isCut none m)).map
        (fun m => m.type_id)),
       max st.2.2 (((cutForest none ns).map (fun m => m.depth)).foldr max 0)) := by
  match ns with
  | [] =>
    show st = _
    simp [cutForest, foldIns_nil]
  | n :: rest =>
    show sumForest rest (sumNode n st) = _
    rw [sumForest_spec rest (sumNode n st), sumNode_spec n st,
      show cutForest none (n :: rest) = cutNode none n ++ cutForest none rest from rfl]
    simp only [List.filter_append, List.map_append, List.append_assoc,
      List.foldl_append, List.foldr_append]
    refine Prod.ext rfl (Prod.ext ?_ ?_)
    · show foldIns (foldIns st.2.1 _) _ = foldIns st.2.1 _
      rw [foldIns, foldIns, foldIns, List.foldl_append]
    · show max (max st.2.2 _) _ = max st.2.2 _
      rw [Nat.max_assoc]
      congr 1
      induction ((cutNode none n).map (fun m => m.depth)) with
      | nil => simp
      | cons x xs ih => simp [List.foldr_cons, ih, Nat.max_assoc]
end

theorem foldIns_nodup (l : List ℤ) : ∀ acc : List ℤ, acc.Nodup → (foldIns acc l).Nodup := by
  induction l with
  | nil => exact fun _ h => h
  | cons x xs ih =>
    intro acc hnd
    rw [foldIns_cons]
    refine ih _ ?_
    by_cases hx : x ∈ acc
    · rw [if_pos hx]; exact hnd
    · rw [if_neg hx]
      simp [List.nodup_append, hnd, hx]

theorem foldIns_mem (l : List ℤ) :
    ∀ (acc : List ℤ) (x : ℤ), x ∈ foldIns acc l ↔ x ∈ acc ∨ x ∈ l := by
  induction l with
  | nil => simp [foldIns_nil]
  | cons y ys ih =>
    intro acc x
    rw [foldIns_cons, ih]
    by_cases hy : y ∈ acc
    · rw [if_pos hy]
      simp only [List.mem_cons]
      constructor
      · tauto
      · rintro (h | rfl | h)
        · exact Or.inl h
        · exact Or.inl hy
        · exact Or.inr h
    · rw [if_neg hy]
      simp only [List.mem_append, List.mem_singleton, List.mem_cons]
      tauto

theorem foldIns_length (l : List ℤ) : (foldIns [] l).length = l.dedup.length := by
  have hnd : (foldIns [] l).Nodup := foldIns_nodup l [] List.nodup_nil
  have hmem : ∀ x, x ∈ foldIns [] l ↔ x ∈ l := fun x => by
    rw [foldIns_mem]
    simp
  calc (foldIns [] l).length = (foldIns [] l).toFinset.card :=
        (List.toFinset_card_of_nodup hnd).symm
    _ = l.toFinset.card := by
        congr 1
        ext x
        simp [List.mem_toFinset, hmem]
    _ = l.dedup.length := List.card_toFinset l

theorem aggNodes_length (l : List MaterialNode) :
    (aggNodes [] l).length = (l.map (fun n => n.type_id)).dedup.length := by
  have hnd : (keysF (aggNodes [] l)).Nodup := keysF_aggNodes_nodup l [] (by simp [keysF])
  have hmem : ∀ k, k ∈ keysF (aggNodes [] l) ↔ k ∈ l.map (fun n => n.type_id) :=
    fun k => by
      rw [keysF_aggNodes_mem]
      simp [keysF]
  have hlen : (aggNodes [] l).length = (keysF (aggNodes [] l)).length := by
    rw [keysF_def, List.length_map]
  rw [hlen]
  calc (keysF (aggNodes [] l)).length = (keysF (aggNodes [] l)).toFinset.card :=
        (List.toFinset_card_of_nodup hnd).symm
    _ = (l.map (fun n => n.type_id)).toFinset.card := by
        congr 1
        ext x
        simp only [List.mem_toFinset]
        exact hmem x
    _ = (l.map (fun n => n.type_id)).dedup.length := List.card_toFinset _

theorem cutForest_all_terminal (ns : List MaterialNode)
    (h : ∀ n ∈ forestAll ns, n.is_terminal = true) :
    cutForest none ns = ns ∧ ∀ n ∈ ns, isCut none n = true := by
  induction ns with
  | nil => exact ⟨rfl, by simp⟩
  | cons n rest ih =>
    have hn : n.is_terminal = true :=
      h n (mem_forestAll.mpr ⟨n, List.mem_cons_self _ _, mem_nodeAll.mpr (Or.inl rfl)⟩)
    have hcut : isCut none n = true := by
      rw [isCut, hn]
      simp
    have hrest := ih (fun m hm => h m (by
      rw [forestAll_cons, List.mem_append]
      exact Or.inr hm))
    constructor
    · rw [show cutForest none (n :: rest) = cutNode none n ++ cutForest none rest from rfl,
        cutNode_eq, if_pos hcut, hrest.1]
      rfl
    · intro m hm
      rcases List.mem_cons.mp hm with rfl | hmr
      · exact hcut
      · exact hrest.2 m hmr

/-- C6 — the chain summary: `max_depth` is the greatest depth over all
visited nodes, the terminal count is the number of distinct item ids over
visited terminal-or-childless nodes (a deduplicated set), the intermediate
count is the number of occurrences of non-terminal nodes with children (not
deduplicated); and on a tree with no non-terminal nodes the intermediate
count is `0` and the terminal count equals `len(flatten(tree, None))`. -/
theorem get_chain_summary_c6 (ns : List MaterialNode) :
    (get_chain_summary ns).max_depth =
      ((cutForest none ns).map (fun n => n.depth)).foldr max 0 ∧
    (get_chain_summary ns).total_terminal_types =
      (((cutForest none ns).filter (fun n => isCut none n)).map
        (fun n => n.type_id)).dedup.length ∧
    (get_chain_summary ns).total_intermediate_types =
      ((cutForest none ns).filter (fun n => ¬ isCut none n)).length ∧
    ((∀ n ∈ forestAll ns, n.is_terminal = true) →
      (get_chain_summary ns).total_intermediate_types = 0 ∧
      (get_chain_summary ns).total_terminal_types =
        (flatten_material_tree ns none).length) := by
  have hspec := sumForest_spec ns ([], [], 0)
  refine ⟨?_, ?_, ?_, ?_⟩
  · show (sumForest ns ([], [], 0)).2.2 = _
    rw [hspec]
    exact Nat.zero_max _
  · show (sumForest ns ([], [], 0)).2.1.length = _
    rw [hspec]
    exact foldIns_length _
  · show (sumForest ns ([], [], 0)).1.length = _
    rw [hspec]
    simp
  · intro hall
    obtain ⟨hcf, hcut⟩ := cutForest_all_terminal ns hall
    constructor
    · show (sumForest ns ([], [], 0)).1.length = 0
      rw [hspec]
      dsimp only
      rw [hcf, List.filter_eq_nil_iff.mpr (fun a ha => by simp [hcut a ha])]
      rfl
    · show (sumForest ns ([], [], 0)).2.1.length = _
      rw [hspec]
      dsimp only
      rw [hcf, List.filter_eq_self.mpr (fun a ha => by exact hcut a ha),
        foldIns_length]
      have hlen : (flatten_material_tree ns none).length =
          (walkForest none ns []).length :=
        (sortByQuantityDesc_perm _).length_eq
      rw [hlen, walkForest_eq_agg, hcf,
        List.filter_eq_self.mpr (fun a ha => by exact hcut a ha), aggNodes_length]

/-- An all-terminal forest for the C6 witness: items 5, 6, 5 with
quantities 4, 9, 2. -/
def exTree6 : List MaterialNode :=
  [⟨5, "t", 4, none, none, none, 0, true, 0, []⟩,
   ⟨6, "u", 9, none, none, none, 0, true, 0, []⟩,
   ⟨5, "t", 2, none, none, none, 0, true, 0, []⟩]

theorem get_chain_summary_c6_witness :
    (get_chain_summary exTree6).max_depth =
      ((cutForest none exTree6).map (fun n => n.depth)).foldr max 0 ∧
    (get_chain_summary exTree6).total_intermediate_types = 0 ∧
    (get_chain_summary exTree6).total_terminal_types =
      (flatten_material_tree exTree6 none).length := by
  have hall : ∀ n ∈ forestAll exTree6, n.is_terminal = true := by decide
  have h := get_chain_summary_c6 exTree6
  exact ⟨h.1, (h.2.2.2 hall).1, (h.2.2.2 hall).2⟩
